import Mathlib

/-!
Verification of the response-parsing and aggregation core of
`multi-model-code-review` against its specification.

The definitions below are a shallow embedding of the Python sources:

* `src/multi_model_code_review/__init__.py` — the verdict data model,
* `src/multi_model_code_review/aggregator.py` — `find_disagreements`,
  `compute_gate`,
* `src/multi_model_code_review/reviewer.py` — the response parser
  (`CHANGE_PATTERN`, `parse_verdict`, `parse_review_response`,
  `parse_observations`) and the review loop (`review_with_model`),
* `src/multi_model_code_review/observations.py` — the observation runner
  (`run_observation`, `run_observations`) and `raises_analysis`.

Python dictionaries are modelled as insertion-ordered association lists with
update-in-place semantics (`dictInsert`).  Python regular-expression matching
(`CHANGE_PATTERN.finditer`, `OBSERVATIONS_PATTERN.search`) is modelled by a
hand-translated backtracking matcher specialised to the concrete patterns of
`reviewer.py`, with greedy/lazy priority replicated by explicit
descending/ascending searches.  External collaborators (the model CLI call,
`json.loads`, the observation tools' filesystem/subprocess work) are taken as
oracle parameters, matching the spec's component boundaries.
-/

/-! ## Generic helpers: Python dict as ordered association list -/

/-- Python `dict` assignment `d[k] = v`: updating an existing key keeps its
position, a new key is appended (insertion order preserved).  Keys of lists
built with `dictInsert` are unique, so replacing the first matching entry is
the exact Python-dict behaviour. -/
def dictInsert {α : Type} (l : List (String × α)) (k : String) (v : α) :
    List (String × α) :=
  match l with
  | [] => [(k, v)]
  | p :: rest => if p.1 = k then (k, v) :: rest else p :: dictInsert rest k v

theorem dictInsert_keys_mem {α : Type} (l : List (String × α)) (k k' : String) (v : α) :
    k' ∈ (dictInsert l k v).map Prod.fst ↔ k' ∈ l.map Prod.fst ∨ k' = k := by
  induction l with
  | nil => simp [dictInsert]
  | cons p rest ih =>
    by_cases h : p.1 = k
    · rw [dictInsert, if_pos h]
      simp only [List.map_cons, List.mem_cons, h]
      tauto
    · rw [dictInsert, if_neg h]
      simp only [List.map_cons, List.mem_cons, ih]
      tauto

theorem dictInsert_keys_nodup {α : Type} (l : List (String × α)) (k : String) (v : α)
    (h : (l.map Prod.fst).Nodup) : ((dictInsert l k v).map Prod.fst).Nodup := by
  induction l with
  | nil => simp [dictInsert]
  | cons p rest ih =>
    simp only [List.map_cons, List.nodup_cons] at h
    by_cases hp : p.1 = k
    · simp only [dictInsert, if_pos hp, List.map_cons, List.nodup_cons]
      exact ⟨by rw [← hp]; exact h.1, h.2⟩
    · simp only [dictInsert, if_neg hp, List.map_cons, List.nodup_cons]
      refine ⟨?_, ih h.2⟩
      rw [dictInsert_keys_mem]
      rintro (hmem | rfl)
      · exact h.1 hmem
      · exact hp rfl

theorem dictInsert_lookup_self {α : Type} (l : List (String × α)) (k : String) (v : α) :
    (dictInsert l k v).lookup k = some v := by
  induction l with
  | nil => simp [dictInsert, List.lookup]
  | cons p rest ih =>
    by_cases h : p.1 = k
    · rw [dictInsert, if_pos h]
      simp [List.lookup]
    · rw [dictInsert, if_neg h]
      rw [List.lookup]
      have hbe : (k == p.1) = false := by
        simp only [beq_eq_false_iff_ne, ne_eq]
        intro hh; exact h hh.symm
      rw [hbe]
      exact ih

theorem dictInsert_lookup_ne {α : Type} (l : List (String × α)) (k k' : String) (v : α)
    (h : k' ≠ k) : (dictInsert l k v).lookup k' = l.lookup k' := by
  induction l with
  | nil =>
    have hbe : (k' == k) = false := by simp [h]
    simp [dictInsert, List.lookup, hbe]
  | cons p rest ih =>
    by_cases hp : p.1 = k
    · rw [dictInsert, if_pos hp]
      rw [List.lookup, List.lookup]
      have h1 : (k' == k) = false := by simp [h]
      have h2 : (k' == p.1) = false := by
        rw [hp]
        simp [h]
      rw [h1, h2]
    · rw [dictInsert, if_neg hp]
      rw [List.lookup, List.lookup]
      cases hpk : (k' == p.1) with
      | true => rfl
      | false => exact ih

/-! ## Verdict data model (`__init__.py`) -/

/-- `Verdict` enum: overall verdict for a change or review. -/
inductive Verdict
  | PASS
  | CONCERN
  | BLOCK
deriving DecidableEq, Repr

/-- `Verdict.value`: the literal string label of the enum member. -/
def Verdict.value : Verdict → String
  | .PASS => "PASS"
  | .CONCERN => "CONCERN"
  | .BLOCK => "BLOCK"

/-- `Correctness` enum. -/
inductive Correctness
  | VALID
  | QUESTIONABLE
  | BROKEN
deriving DecidableEq, Repr

/-- `SpecCompliance` enum. -/
inductive SpecCompliance
  | MEETS
  | PARTIAL
  | VIOLATES
  | NA
deriving DecidableEq, Repr

/-- `TestCoverage` enum. -/
inductive TestCoverage
  | COVERED
  | PARTIAL
  | UNTESTED
deriving DecidableEq, Repr

/-- `Integration` enum. -/
inductive Integration
  | WIRED
  | PARTIAL
  | MISSING
deriving DecidableEq, Repr

/-- `Confidence` enum. -/
inductive Confidence
  | HIGH
  | MEDIUM
  | LOW
deriving DecidableEq, Repr

/-- `SelfReview` dataclass. -/
structure SelfReview where
  confidence : Confidence
  limitations : String := ""
deriving DecidableEq, Repr

/-- `ChangeVerdict` dataclass: review verdict for a single change. -/
structure ChangeVerdict where
  change_id : String
  verdict : Verdict
  correctness : Option Correctness := none
  spec_compliance : Option SpecCompliance := none
  test_coverage : Option TestCoverage := none
  integration : Option Integration := none
  reasoning : String := ""
deriving DecidableEq, Repr

/-- A JSON-able Python value, used for observation results and parsed JSON. -/
inductive PyVal
  | str (s : String)
  | int (n : Int)
  | bool (b : Bool)
  | none
  | list (xs : List PyVal)
  | dict (kvs : List (String × PyVal))

/-- `ModelReview` dataclass.  The `observations` field models the attribute
`review.observations` that `review_with_model` attaches dynamically to the
dataclass instance. -/
structure ModelReview where
  model : String
  gate : Verdict
  changes : List ChangeVerdict := []
  raw_response : String := ""
  self_review : Option SelfReview := Option.none
  feature_requests : List String := []
  observations : List (String × PyVal) := []

/-! ## Aggregator (`aggregator.py`) -/

/-- `compute_gate(reviews)` from `aggregator.py`. -/
def compute_gate (reviews : List ModelReview) : Verdict :=
  match reviews with
  | [] => Verdict.CONCERN
  | _ :: _ =>
    let gates := reviews.map (fun r => r.gate)
    if Verdict.BLOCK ∈ gates then Verdict.BLOCK
    else if Verdict.CONCERN ∈ gates then Verdict.CONCERN
    else Verdict.PASS

/-- C1: For every list of ModelReview values, `compute_gate(reviews)` returns
BLOCK if any review's gate is BLOCK; else CONCERN if any review's gate is
CONCERN; else PASS if all gates are PASS; and returns CONCERN when the list
is empty. -/
theorem compute_gate_correct (reviews : List ModelReview) :
    compute_gate reviews =
      if ∃ r ∈ reviews, r.gate = Verdict.BLOCK then Verdict.BLOCK
      else if ∃ r ∈ reviews, r.gate = Verdict.CONCERN then Verdict.CONCERN
      else if reviews.isEmpty then Verdict.CONCERN
      else Verdict.PASS := by
  match reviews with
  | [] => simp [compute_gate]
  | r0 :: rest =>
    have hblock : (Verdict.BLOCK ∈ (r0 :: rest).map (fun r => r.gate)) ↔
        ∃ r ∈ r0 :: rest, r.gate = Verdict.BLOCK := by
      simp only [List.map_cons, List.mem_cons, List.mem_map]
      constructor
      · rintro (h0 | ⟨a, ha, hg⟩)
        · exact ⟨r0, Or.inl rfl, h0.symm⟩
        · exact ⟨a, Or.inr ha, hg⟩
      · rintro ⟨r, (rfl | hr), hg⟩
        · exact Or.inl hg.symm
        · exact Or.inr ⟨r, hr, hg⟩
    have hconcern : (Verdict.CONCERN ∈ (r0 :: rest).map (fun r => r.gate)) ↔
        ∃ r ∈ r0 :: rest, r.gate = Verdict.CONCERN := by
      simp only [List.map_cons, List.mem_cons, List.mem_map]
      constructor
      · rintro (h0 | ⟨a, ha, hg⟩)
        · exact ⟨r0, Or.inl rfl, h0.symm⟩
        · exact ⟨a, Or.inr ha, hg⟩
      · rintro ⟨r, (rfl | hr), hg⟩
        · exact Or.inl hg.symm
        · exact Or.inr ⟨r, hr, hg⟩
    rw [compute_gate]
    by_cases hb : ∃ r ∈ r0 :: rest, r.gate = Verdict.BLOCK
    · rw [if_pos (hblock.mpr hb), if_pos hb]
    · rw [if_neg hb, if_neg (fun h => hb (hblock.mp h))]
      by_cases hc : ∃ r ∈ r0 :: rest, r.gate = Verdict.CONCERN
      · rw [if_pos (hconcern.mpr hc), if_pos hc]
      · rw [if_neg hc, if_neg (fun h => hc (hconcern.mp h))]
        simp [List.isEmpty]

/-! ## Character/string helpers (Python `str` methods, ASCII fragment) -/

/-- Python `\s` / `str.strip` whitespace (ASCII fragment). -/
def isSpaceChar (c : Char) : Bool :=
  c = ' ' || c = '\t' || c = '\n' || c = '\r' || c = '\x0b' || c = '\x0c'

/-- Python `str.strip()`. -/
def stripChars (l : List Char) : List Char :=
  ((l.dropWhile isSpaceChar).reverse.dropWhile isSpaceChar).reverse

/-- Python `str.upper()` (ASCII fragment). -/
def upperChars (l : List Char) : List Char := l.map Char.toUpper

/-- Length of the maximal whitespace run at the head (regex `\s*` greedy). -/
def wsRun : List Char → Nat
  | [] => 0
  | c :: rest => if isSpaceChar c then wsRun rest + 1 else 0

/-- Python regex `\w` (ASCII fragment). -/
def isWordChar (c : Char) : Bool := c.isAlphanum || c = '_'

/-- Length of the maximal word-character run at the head (regex `\w+` greedy). -/
def wordRun : List Char → Nat
  | [] => 0
  | c :: rest => if isWordChar c then wordRun rest + 1 else 0

/-- Length of the maximal run of non-newline characters (regex `[^\n]+`). -/
def lineRun : List Char → Nat
  | [] => 0
  | c :: rest => if c ≠ '\n' then lineRun rest + 1 else 0

/-- Literal prefix test. -/
def litPrefix : List Char → List Char → Bool
  | [], _ => true
  | _ :: _, [] => false
  | p :: ps, c :: cs => p = c && litPrefix ps cs

/-- Case-insensitive literal prefix test (regex `re.IGNORECASE` on literals). -/
def litPrefixCI : List Char → List Char → Bool
  | [], _ => true
  | _ :: _, [] => false
  | p :: ps, c :: cs => p.toLower = c.toLower && litPrefixCI ps cs

/-- Consume a case-insensitive literal, returning the rest. -/
def dropCI (pat l : List Char) : Option (List Char) :=
  if litPrefixCI pat l then some (l.drop pat.length) else none

/-! ## Field-value parsers (`reviewer.py`) -/

/-- `parse_verdict(text)`: strip/upper then compare; unrecognized text
defaults to CONCERN. -/
def parse_verdict (text : String) : Verdict :=
  let t := upperChars (stripChars text.data)
  if t = "PASS".data then Verdict.PASS
  else if t = "CONCERN".data then Verdict.CONCERN
  else if t = "BLOCK".data then Verdict.BLOCK
  else Verdict.CONCERN

/-- `parse_correctness(text)`. -/
def parse_correctness (text : String) : Option Correctness :=
  let t := upperChars (stripChars text.data)
  if t = "VALID".data then some Correctness.VALID
  else if t = "QUESTIONABLE".data then some Correctness.QUESTIONABLE
  else if t = "BROKEN".data then some Correctness.BROKEN
  else none

/-- `parse_spec_compliance(text)`. -/
def parse_spec_compliance (text : String) : Option SpecCompliance :=
  let t := upperChars (stripChars text.data)
  if t = "MEETS".data then some SpecCompliance.MEETS
  else if t = "PARTIAL".data then some SpecCompliance.PARTIAL
  else if t = "VIOLATES".data then some SpecCompliance.VIOLATES
  else if t = "N/A".data ∨ t = "NA".data then some SpecCompliance.NA
  else none

/-- `parse_test_coverage(text)`. -/
def parse_test_coverage (text : String) : Option TestCoverage :=
  let t := upperChars (stripChars text.data)
  if t = "COVERED".data then some TestCoverage.COVERED
  else if t = "PARTIAL".data then some TestCoverage.PARTIAL
  else if t = "UNTESTED".data then some TestCoverage.UNTESTED
  else none

/-- `parse_integration(text)`. -/
def parse_integration (text : String) : Option Integration :=
  let t := upperChars (stripChars text.data)
  if t = "WIRED".data then some Integration.WIRED
  else if t = "PARTIAL".data then some Integration.PARTIAL
  else if t = "MISSING".data then some Integration.MISSING
  else none

/-- `parse_confidence(text)`: unrecognized text defaults to MEDIUM. -/
def parse_confidence (text : String) : Confidence :=
  let t := upperChars (stripChars text.data)
  if t = "HIGH".data then Confidence.HIGH
  else if t = "LOW".data then Confidence.LOW
  else Confidence.MEDIUM

/-! ## Backtracking search combinators

Python's `re` engine tries quantifier lengths in priority order: greedy
quantifiers longest-first (`tryDown`), lazy quantifiers shortest-first
(`tryUp`); the first combination that lets the rest of the pattern succeed
wins. -/

/-- Try `f n, f (n-1), ..., f 0`; first `some` wins (greedy priority). -/
def tryDown {α : Type} (f : Nat → Option α) : Nat → Option α
  | 0 => f 0
  | n + 1 => (f (n + 1)).orElse (fun _ => tryDown f n)

/-- Try `f lo, f (lo+1), ..., f (lo+fuel)`; first `some` wins (lazy
priority). -/
def tryUpAux {α : Type} (f : Nat → Option α) (lo : Nat) : Nat → Option α
  | 0 => f lo
  | fuel + 1 => (f lo).orElse (fun _ => tryUpAux f (lo + 1) fuel)

/-- Try `f lo, ..., f hi` in ascending order (lazy priority). -/
def tryUp {α : Type} (f : Nat → Option α) (lo hi : Nat) : Option α :=
  if lo ≤ hi then tryUpAux f lo (hi - lo) else Option.none

theorem tryDown_some {α : Type} (f : Nat → Option α) (n : Nat) (a : α)
    (h : tryDown f n = some a) : ∃ k, k ≤ n ∧ f k = some a := by
  induction n with
  | zero => exact ⟨0, Nat.le_refl 0, h⟩
  | succ n ih =>
    rw [tryDown] at h
    cases hf : f (n + 1) with
    | some b =>
      rw [hf] at h
      simp only [Option.orElse] at h
      exact ⟨n + 1, Nat.le_refl _, by rw [hf, h]⟩
    | none =>
      rw [hf] at h
      simp only [Option.orElse] at h
      obtain ⟨k, hk, hfk⟩ := ih h
      exact ⟨k, Nat.le_succ_of_le hk, hfk⟩

theorem tryUpAux_some {α : Type} (f : Nat → Option α) (lo fuel : Nat) (a : α)
    (h : tryUpAux f lo fuel = some a) : ∃ k, lo ≤ k ∧ k ≤ lo + fuel ∧ f k = some a := by
  induction fuel generalizing lo with
  | zero => exact ⟨lo, Nat.le_refl lo, Nat.le_add_right lo 0, h⟩
  | succ fuel ih =>
    rw [tryUpAux] at h
    cases hf : f lo with
    | some b =>
      rw [hf] at h
      simp only [Option.orElse] at h
      exact ⟨lo, Nat.le_refl lo, Nat.le_add_right _ _, by rw [hf, h]⟩
    | none =>
      rw [hf] at h
      simp only [Option.orElse] at h
      obtain ⟨k, hk1, hk2, hfk⟩ := ih (lo + 1) h
      exact ⟨k, Nat.le_of_succ_le hk1, by omega, hfk⟩

theorem tryUp_some {α : Type} (f : Nat → Option α) (lo hi : Nat) (a : α)
    (h : tryUp f lo hi = some a) : ∃ k, lo ≤ k ∧ k ≤ hi ∧ f k = some a := by
  rw [tryUp] at h
  split at h
  · obtain ⟨k, hk1, hk2, hfk⟩ := tryUpAux_some f lo (hi - lo) a h
    exact ⟨k, hk1, by omega, hfk⟩
  · exact absurd h (by simp)

/-! ## CHANGE_PATTERN matcher (`reviewer.py`)

```
CHANGE_PATTERN = re.compile(
    r"###\s+(.+?)\s*\n"
    r"VERDICT:\s*(PASS|CONCERN|BLOCK)\s*\n"
    r"(?:CORRECTNESS:\s*(\w+)\s*\n)?"
    r"(?:SPEC_COMPLIANCE:\s*([^\n]+)\s*\n)?"
    r"(?:TEST_COVERAGE:\s*(\w+)\s*\n)?"
    r"(?:INTEGRATION:\s*(\w+)\s*\n)?"
    r"REASONING:\s*(.*?)(?=\n---|\n###|\n##|$)",
    re.DOTALL | re.IGNORECASE)
```
Each combinator below encodes one pattern fragment with the engine's
backtracking priority. -/

/-- Captured groups of one `CHANGE_PATTERN` match. -/
structure RawMatch where
  g1 : List Char
  g2 : List Char
  g3 : Option (List Char) := Option.none
  g4 : Option (List Char) := Option.none
  g5 : Option (List Char) := Option.none
  g6 : Option (List Char) := Option.none
  g7 : List Char := []
deriving DecidableEq, Repr

/-- `\s*\n` then continuation `k`: the consumed `\n` is one of the newlines
inside the maximal whitespace run, tried last-first (greedy `\s*`). -/
def wsNlThen {α : Type} (k : List Char → Option α) (l : List Char) : Option α :=
  tryDown (fun c => if l.get? c = some '\n' then k (l.drop (c + 1)) else Option.none)
    (wsRun l)

/-- `(PASS|CONCERN|BLOCK)` (case-insensitive); the keywords share no prefix,
so at most one alternative can match. -/
def matchKeyword (l : List Char) : Option (List Char × List Char) :=
  if litPrefixCI "PASS".data l then some (l.take 4, l.drop 4)
  else if litPrefixCI "CONCERN".data l then some (l.take 7, l.drop 7)
  else if litPrefixCI "BLOCK".data l then some (l.take 5, l.drop 5)
  else Option.none

/-- The lookahead `(?=\n---|\n###|\n##|$)`; without `re.MULTILINE`, `$`
matches at the end of the text or just before a final newline. -/
def isTerm (l : List Char) : Bool :=
  litPrefix "\n---".data l || litPrefix "\n###".data l || litPrefix "\n##".data l ||
    l.isEmpty || l = ['\n']

/-- `(.*?)(?=\n---|\n###|\n##|$)` with `re.DOTALL`: the shortest prefix whose
following suffix satisfies the lookahead (always exists, since the end of the
text satisfies it).  Returns (group, suffix at the lookahead position). -/
def takeUntilTerm : List Char → List Char × List Char
  | [] => ([], [])
  | c :: rest =>
    if isTerm (c :: rest) then ([], c :: rest)
    else
      let p := takeUntilTerm rest
      (c :: p.1, p.2)

/-- `REASONING:\s*(.*?)(?=\n---|\n###|\n##|$)`: after the label, greedy `\s*`
is deterministic (the lazy `.*?` can always extend to the end of text, where
`$` holds, so the engine never backtracks into the `\s*`). -/
def stReasoning (l : List Char) : Option (List Char × List Char) :=
  match dropCI "REASONING:".data l with
  | Option.none => Option.none
  | some l1 =>
    let l2 := l1.drop (wsRun l1)
    some (takeUntilTerm l2)

/-- Optional field `(?:LABEL:\s*(\w+)\s*\n)?` then continuation `k` (which
receives the optional group).  `\s*` before `\w+` and the `\w+` run itself
are deterministic: word characters are not whitespace, so no shorter split
can satisfy the following `\s*\n`. -/
def stWordField {α : Type} (label : List Char)
    (k : Option (List Char) → List Char → Option α) (l : List Char) : Option α :=
  (match dropCI label l with
   | Option.none => Option.none
   | some l1 =>
     let l2 := l1.drop (wsRun l1)
     let w := wordRun l2
     if w = 0 then Option.none
     else wsNlThen (fun rest => k (some (l2.take w)) rest) (l2.drop w)).orElse
    (fun _ => k Option.none l)

/-- Optional field `(?:LABEL:\s*([^\n]+)\s*\n)?` then continuation `k`.
`[^\n]+` may contain whitespace, so both the greedy `\s*` before it and its
own greedy length must be enumerated (longest first). -/
def stLineField {α : Type} (label : List Char)
    (k : Option (List Char) → List Char → Option α) (l : List Char) : Option α :=
  (match dropCI label l with
   | Option.none => Option.none
   | some l1 =>
     tryDown (fun s =>
       let l2 := l1.drop s
       let m := lineRun l2
       if m = 0 then Option.none
       else
         tryDown (fun jm1 =>
           let j := jm1 + 1
           wsNlThen (fun rest => k (some (l2.take j)) rest) (l2.drop j)) (m - 1))
       (wsRun l1)).orElse (fun _ => k Option.none l)

/-- Groups 3–7 of `CHANGE_PATTERN`, starting after `VERDICT:...\n`. -/
def tailCont (g1 g2 : List Char) (l : List Char) : Option (RawMatch × List Char) :=
  stWordField "CORRECTNESS:".data (fun g3 l3 =>
    stLineField "SPEC_COMPLIANCE:".data (fun g4 l4 =>
      stWordField "TEST_COVERAGE:".data (fun g5 l5 =>
        stWordField "INTEGRATION:".data (fun g6 l6 =>
          (stReasoning l6).map (fun p =>
            ({ g1 := g1, g2 := g2, g3 := g3, g4 := g4, g5 := g5, g6 := g6,
               g7 := p.1 }, p.2))) l5) l4) l3) l

/-- `VERDICT:\s*(PASS|CONCERN|BLOCK)\s*\n` then groups 3–7.  The `\s*`
before the keyword is deterministic (keywords start with a letter). -/
def matchTail (g1 : List Char) (l : List Char) : Option (RawMatch × List Char) :=
  match dropCI "VERDICT:".data l with
  | Option.none => Option.none
  | some l1 =>
    let l2 := l1.drop (wsRun l1)
    match matchKeyword l2 with
    | Option.none => Option.none
    | some (g2, l3) => wsNlThen (tailCont g1 g2) l3

/-- `\s+(.+?)\s*\n` then the tail, for the text right after the literal
`###`.  `\s+` is greedy (longest first), `(.+?)` is lazy (shortest first,
may span newlines under `re.DOTALL`). -/
def matchChangeCore (l : List Char) : Option (RawMatch × List Char) :=
  let a0 := wsRun l
  if a0 = 0 then Option.none
  else
    tryDown (fun am1 =>
      let a := am1 + 1
      if a ≤ a0 then
        let l1 := l.drop a
        tryUp (fun b =>
          if b = 0 then Option.none
          else
            let g1 := l1.take b
            let l2 := l1.drop b
            wsNlThen (matchTail g1) l2) 1 l1.length
      else Option.none) (a0 - 1)

/-- One anchored attempt of `CHANGE_PATTERN` at the start of `l`. -/
def matchChangeAt (l : List Char) : Option (RawMatch × List Char) :=
  if litPrefix "###".data l then matchChangeCore (l.drop 3) else Option.none

/-- `CHANGE_PATTERN.finditer`: scan left to right, non-overlapping; on a
match, resume at the match end.  Every match consumes at least one
character, so `fuel = length` never runs out before the scan completes. -/
def findIter : List Char → Nat → List RawMatch
  | _, 0 => []
  | [], _ => []
  | l@(_ :: rest), fuel + 1 =>
    match matchChangeAt l with
    | some (m, rest') => m :: findIter rest' fuel
    | Option.none => findIter rest fuel

/-- All `CHANGE_PATTERN` matches of a response string, in order. -/
def changeMatches (s : String) : List RawMatch :=
  findIter s.data s.data.length

/-! ## The remaining section patterns of `reviewer.py` -/

/-- `re.search`-style scan: try an anchored match at each position, left to
right, returning the first success. -/
def searchFirst {α : Type} (tryAt : List Char → Option α) : List Char → Nat → Option α
  | _, 0 => Option.none
  | [], _ => Option.none
  | l@(_ :: rest), fuel + 1 => (tryAt l).orElse (fun _ => searchFirst tryAt rest fuel)

/-- `(HIGH|MEDIUM|LOW)` (case-insensitive). -/
def matchConfKeyword (l : List Char) : Option (List Char × List Char) :=
  if litPrefixCI "HIGH".data l then some (l.take 4, l.drop 4)
  else if litPrefixCI "MEDIUM".data l then some (l.take 6, l.drop 6)
  else if litPrefixCI "LOW".data l then some (l.take 3, l.drop 3)
  else Option.none

/-- One anchored attempt of `SELF_REVIEW_PATTERN`:
`###\s*SELF_REVIEW\s*\nCONFIDENCE:\s*(HIGH|MEDIUM|LOW)\s*\nLIMITATIONS:\s*(.*?)(?=\n---|\n###|\n##|$)`. -/
def matchSelfReviewAt (l : List Char) : Option (List Char × List Char) :=
  if litPrefix "###".data l then
    let l0 := l.drop 3
    match dropCI "SELF_REVIEW".data (l0.drop (wsRun l0)) with
    | Option.none => Option.none
    | some l1 =>
      wsNlThen (fun l2 =>
        match dropCI "CONFIDENCE:".data l2 with
        | Option.none => Option.none
        | some l3 =>
          let l4 := l3.drop (wsRun l3)
          match matchConfKeyword l4 with
          | Option.none => Option.none
          | some (g1, l5) =>
            wsNlThen (fun l6 =>
              match dropCI "LIMITATIONS:".data l6 with
              | Option.none => Option.none
              | some l7 => some (g1, (takeUntilTerm (l7.drop (wsRun l7))).1)) l5) l1
  else Option.none

/-- `parse_self_review(response)`. -/
def parse_self_review (response : String) : Option SelfReview :=
  match searchFirst matchSelfReviewAt response.data response.data.length with
  | Option.none => Option.none
  | some p =>
    some { confidence := parse_confidence ⟨p.1⟩,
           limitations := (stripChars p.2).asString }

/-- One anchored attempt of `FEATURE_REQUESTS_PATTERN`:
`###\s*FEATURE_REQUESTS\s*\n(.*?)(?=\n---|\n###|\n##|$)`. -/
def matchFeatureRequestsAt (l : List Char) : Option (List Char) :=
  if litPrefix "###".data l then
    let l0 := l.drop 3
    match dropCI "FEATURE_REQUESTS".data (l0.drop (wsRun l0)) with
    | Option.none => Option.none
    | some l1 => wsNlThen (fun l2 => some (takeUntilTerm l2).1) l1
  else Option.none

/-- Python `content.split("\n")`. -/
def splitOnNl : List Char → List (List Char)
  | [] => [[]]
  | c :: rest =>
    if c = '\n' then [] :: splitOnNl rest
    else
      match splitOnNl rest with
      | [] => [[c]]
      | line :: ls => (c :: line) :: ls

/-- `parse_feature_requests(response)`: bullet lines (`- ` or `* `) of the
matched block, prefix and whitespace stripped. -/
def parse_feature_requests (response : String) : List String :=
  match searchFirst matchFeatureRequestsAt response.data response.data.length with
  | Option.none => []
  | some g1 =>
    let content := stripChars g1
    (splitOnNl content).foldl (fun acc rawLine =>
      let line := stripChars rawLine
      if litPrefix "- ".data line || litPrefix "* ".data line then
        acc ++ [(stripChars (line.drop 2)).asString]
      else acc) []

/-- `(.*?)\n```` ``: the shortest prefix followed by a fenced-block close,
which is consumed.  `none` if no close fence occurs. -/
def takeUntilFence : List Char → Option (List Char × List Char)
  | [] => Option.none
  | c :: rest =>
    if litPrefix "\n```".data (c :: rest) then some ([], (c :: rest).drop 4)
    else
      match takeUntilFence rest with
      | Option.none => Option.none
      | some p => some (c :: p.1, p.2)

/-- One anchored attempt of `OBSERVATIONS_PATTERN`:
`###\s*OBSERVATIONS\s*\n```json\n(.*?)\n```` ``. -/
def matchObsAt (l : List Char) : Option (List Char) :=
  if litPrefix "###".data l then
    let l0 := l.drop 3
    match dropCI "OBSERVATIONS".data (l0.drop (wsRun l0)) with
    | Option.none => Option.none
    | some l1 =>
      wsNlThen (fun l2 =>
        match dropCI "```json\n".data l2 with
        | Option.none => Option.none
        | some l3 => (takeUntilFence l3).map (fun p => p.1)) l1
  else Option.none

/-- `OBSERVATIONS_PATTERN.search(response)`, returning group 1. -/
def obsFenceContent (response : String) : Option (List Char) :=
  searchFirst matchObsAt response.data response.data.length

/-- `parse_observations(response)` from `reviewer.py`.  `json.loads` is an
external collaborator (Python's stdlib JSON parser), taken as an oracle:
`.error` models a raised `JSONDecodeError`. -/
def parse_observations (jsonLoads : String → Except String PyVal) (response : String) :
    List PyVal :=
  match obsFenceContent response with
  | Option.none => []
  | some content =>
    match jsonLoads (stripChars content).asString with
    | Except.error _ => []
    | Except.ok (PyVal.list xs) => xs
    | Except.ok _ => []

/-! ## `parse_review_response` (`reviewer.py`) -/

/-- The gate loop of `parse_review_response`: start at PASS, break at the
first BLOCK change, record CONCERN otherwise. -/
def gateLoop (gate : Verdict) : List ChangeVerdict → Verdict
  | [] => gate
  | c :: rest =>
    if c.verdict = Verdict.BLOCK then Verdict.BLOCK
    else if c.verdict = Verdict.CONCERN then gateLoop Verdict.CONCERN rest
    else gateLoop gate rest

/-- One parsed change from one `CHANGE_PATTERN` match. -/
def changeOfMatch (m : RawMatch) : ChangeVerdict :=
  { change_id := (stripChars m.g1).asString
    verdict := parse_verdict ⟨m.g2⟩
    correctness := m.g3.bind (fun t => parse_correctness ⟨t⟩)
    spec_compliance := m.g4.bind (fun t => parse_spec_compliance ⟨t⟩)
    test_coverage := m.g5.bind (fun t => parse_test_coverage ⟨t⟩)
    integration := m.g6.bind (fun t => parse_integration ⟨t⟩)
    reasoning := (stripChars m.g7).asString }

/-- `parse_review_response(model, response)` from `reviewer.py`. -/
def parse_review_response (model response : String) : ModelReview :=
  let changes := (changeMatches response).map changeOfMatch
  let gate :=
    match changes with
    | [] => Verdict.CONCERN
    | _ :: _ => gateLoop Verdict.PASS changes
  { model := model
    gate := gate
    changes := changes
    raw_response := response
    self_review := parse_self_review response
    feature_requests := parse_feature_requests response }

/-! ## Properties of the matcher -/

theorem orElse_some {α : Type} (x : Option α) (f : Unit → Option α) (a : α)
    (h : x.orElse f = some a) : x = some a ∨ (x = Option.none ∧ f () = some a) := by
  cases x with
  | some b => left; exact h
  | none => right; exact ⟨rfl, h⟩

theorem takeUntilTerm_append (l : List Char) :
    (takeUntilTerm l).1 ++ (takeUntilTerm l).2 = l := by
  induction l with
  | nil => rfl
  | cons c rest ih =>
    rw [takeUntilTerm]
    by_cases h : isTerm (c :: rest) = true
    · rw [if_pos h]
      rfl
    · rw [if_neg h]
      simpa using ih

theorem takeUntilTerm_isTerm (l : List Char) : isTerm (takeUntilTerm l).2 = true := by
  induction l with
  | nil => rfl
  | cons c rest ih =>
    rw [takeUntilTerm]
    by_cases h : isTerm (c :: rest) = true
    · rw [if_pos h]
      exact h
    · rw [if_neg h]
      exact ih

theorem takeUntilTerm_min (l : List Char) :
    ∀ i < (takeUntilTerm l).1.length, isTerm (l.drop i) = false := by
  induction l with
  | nil => intro i hi; simp [takeUntilTerm] at hi
  | cons c rest ih =>
    intro i hi
    rw [takeUntilTerm] at hi
    by_cases h : isTerm (c :: rest) = true
    · rw [if_pos h] at hi
      simp at hi
    · rw [if_neg h] at hi
      cases i with
      | zero =>
        simpa using Bool.eq_false_iff.mpr h
      | succ j =>
        rw [List.drop_succ_cons]
        apply ih
        simpa using hi

theorem takeUntilTerm_suffix (l : List Char) : (takeUntilTerm l).2 <:+ l :=
  ⟨(takeUntilTerm l).1, takeUntilTerm_append l⟩

theorem wsNlThen_some {α : Type} (k : List Char → Option α) (l : List Char) (a : α)
    (h : wsNlThen k l = some a) :
    ∃ c, l.get? c = some '\n' ∧ k (l.drop (c + 1)) = some a := by
  rw [wsNlThen] at h
  obtain ⟨c, _, hc⟩ := tryDown_some _ _ _ h
  by_cases hnl : l.get? c = some '\n'
  · rw [if_pos hnl] at hc
    exact ⟨c, hnl, hc⟩
  · rw [if_neg hnl] at hc
    exact absurd hc (by simp)

/-- Case-insensitive equality of `g` with one of the three verdict
keywords (a prefix test of equal length is an equality test). -/
def VerdictKeyword (g : List Char) : Prop :=
  (litPrefixCI "PASS".data g = true ∧ g.length = 4) ∨
  (litPrefixCI "CONCERN".data g = true ∧ g.length = 7) ∨
  (litPrefixCI "BLOCK".data g = true ∧ g.length = 5)

theorem litPrefixCI_length_le (pat l : List Char) (h : litPrefixCI pat l = true) :
    pat.length ≤ l.length := by
  induction pat generalizing l with
  | nil => simp
  | cons p ps ih =>
    cases l with
    | nil => simp [litPrefixCI] at h
    | cons c cs =>
      rw [litPrefixCI] at h
      simp only [Bool.and_eq_true] at h
      simpa using ih cs h.2

theorem litPrefixCI_take (pat l : List Char) (h : litPrefixCI pat l = true) :
    litPrefixCI pat (l.take pat.length) = true := by
  induction pat generalizing l with
  | nil => rfl
  | cons p ps ih =>
    cases l with
    | nil => simp [litPrefixCI] at h
    | cons c cs =>
      rw [litPrefixCI] at h
      simp only [Bool.and_eq_true] at h
      rw [List.length_cons, List.take_succ_cons, litPrefixCI]
      simp only [Bool.and_eq_true]
      exact ⟨h.1, ih cs h.2⟩

theorem matchKeyword_some (l g rest : List Char)
    (h : matchKeyword l = some (g, rest)) : VerdictKeyword g ∧ rest <:+ l := by
  rw [matchKeyword] at h
  by_cases h1 : litPrefixCI "PASS".data l = true
  · rw [if_pos h1] at h
    obtain ⟨hg, hrest⟩ := Prod.mk.injEq .. ▸ Option.some.inj h
    subst hg; subst hrest
    have hlen : 4 ≤ l.length := litPrefixCI_length_le _ _ h1
    have htk : litPrefixCI "PASS".data (l.take 4) = true := litPrefixCI_take _ _ h1
    exact ⟨Or.inl ⟨htk, List.length_take_of_le hlen⟩, List.drop_suffix _ _⟩
  · rw [if_neg h1] at h
    by_cases h2 : litPrefixCI "CONCERN".data l = true
    · rw [if_pos h2] at h
      obtain ⟨hg, hrest⟩ := Prod.mk.injEq .. ▸ Option.some.inj h
      subst hg; subst hrest
      have hlen : 7 ≤ l.length := litPrefixCI_length_le _ _ h2
      have htk : litPrefixCI "CONCERN".data (l.take 7) = true := litPrefixCI_take _ _ h2
      exact ⟨Or.inr (Or.inl ⟨htk, List.length_take_of_le hlen⟩), List.drop_suffix _ _⟩
    · rw [if_neg h2] at h
      by_cases h3 : litPrefixCI "BLOCK".data l = true
      · rw [if_pos h3] at h
        obtain ⟨hg, hrest⟩ := Prod.mk.injEq .. ▸ Option.some.inj h
        subst hg; subst hrest
        have hlen : 5 ≤ l.length := litPrefixCI_length_le _ _ h3
        have htk : litPrefixCI "BLOCK".data (l.take 5) = true := litPrefixCI_take _ _ h3
        exact ⟨Or.inr (Or.inr ⟨htk, List.length_take_of_le hlen⟩), List.drop_suffix _ _⟩
      · rw [if_neg h3] at h
        exact absurd h (by simp)

theorem dropCI_some (pat l l1 : List Char) (h : dropCI pat l = some l1) :
    l1 = l.drop pat.length := by
  rw [dropCI] at h
  split at h
  · exact (Option.some.inj h).symm
  · exact absurd h (by simp)

theorem stReasoning_some (l g rest : List Char)
    (h : stReasoning l = some (g, rest)) :
    ∃ t, t <:+ l ∧ takeUntilTerm t = (g, rest) := by
  rw [stReasoning] at h
  cases hd : dropCI "REASONING:".data l with
  | none => rw [hd] at h; exact absurd h (by simp)
  | some l1 =>
    rw [hd] at h
    refine ⟨l1.drop (wsRun l1), ?_, Option.some.inj h⟩
    rw [dropCI_some _ _ _ hd]
    exact (List.drop_suffix _ _).trans (List.drop_suffix _ _)

theorem stWordField_some {α : Type} (label : List Char)
    (k : Option (List Char) → List Char → Option α) (l : List Char) (a : α)
    (h : stWordField label k l = some a) :
    (∃ g rest, rest <:+ l ∧ k (some g) rest = some a) ∨ k Option.none l = some a := by
  rw [stWordField] at h
  rcases orElse_some _ _ _ h with hx | ⟨_, hy⟩
  · cases hd : dropCI label l with
    | none => rw [hd] at hx; exact absurd hx (by simp)
    | some l1 =>
      rw [hd] at hx
      simp only at hx
      by_cases hw : wordRun (l1.drop (wsRun l1)) = 0
      · rw [if_pos hw] at hx
        exact absurd hx (by simp)
      · rw [if_neg hw] at hx
        obtain ⟨c, _, hk⟩ := wsNlThen_some _ _ _ hx
        refine Or.inl ⟨_, _, ?_, hk⟩
        have hl1 : l1 = l.drop label.length := dropCI_some _ _ _ hd
        rw [hl1]
        exact ((List.drop_suffix _ _).trans ((List.drop_suffix _ _).trans
          ((List.drop_suffix _ _).trans (List.drop_suffix _ _))))
  · exact Or.inr hy

theorem stLineField_some {α : Type} (label : List Char)
    (k : Option (List Char) → List Char → Option α) (l : List Char) (a : α)
    (h : stLineField label k l = some a) :
    (∃ g rest, rest <:+ l ∧ k (some g) rest = some a) ∨ k Option.none l = some a := by
  rw [stLineField] at h
  rcases orElse_some _ _ _ h with hx | ⟨_, hy⟩
  · cases hd : dropCI label l with
    | none => rw [hd] at hx; exact absurd hx (by simp)
    | some l1 =>
      rw [hd] at hx
      simp only at hx
      obtain ⟨s, _, hs⟩ := tryDown_some _ _ _ hx
      by_cases hm : lineRun (l1.drop s) = 0
      · rw [if_pos hm] at hs
        exact absurd hs (by simp)
      · rw [if_neg hm] at hs
        obtain ⟨j, _, hj⟩ := tryDown_some _ _ _ hs
        obtain ⟨c, _, hk⟩ := wsNlThen_some _ _ _ hj
        refine Or.inl ⟨_, _, ?_, hk⟩
        have hl1 : l1 = l.drop label.length := dropCI_some _ _ _ hd
        rw [hl1]
        exact ((List.drop_suffix _ _).trans ((List.drop_suffix _ _).trans
          ((List.drop_suffix _ _).trans (List.drop_suffix _ _))))
  · exact Or.inr hy

theorem tailCont_some (g1 g2 l : List Char) (m : RawMatch) (rest : List Char)
    (h : tailCont g1 g2 l = some (m, rest)) :
    m.g1 = g1 ∧ m.g2 = g2 ∧ ∃ t, t <:+ l ∧ takeUntilTerm t = (m.g7, rest) := by
  rw [tailCont] at h
  have step3 := stWordField_some _ _ _ _ h
  -- Reduce both cases to: the SPEC_COMPLIANCE stage succeeds on a suffix of l.
  have h4 : ∃ l4, l4 <:+ l ∧ ∃ g3,
      stLineField "SPEC_COMPLIANCE:".data (fun g4 l4 =>
        stWordField "TEST_COVERAGE:".data (fun g5 l5 =>
          stWordField "INTEGRATION:".data (fun g6 l6 =>
            (stReasoning l6).map (fun p =>
              ({ g1 := g1, g2 := g2, g3 := g3, g4 := g4, g5 := g5, g6 := g6,
                 g7 := p.1 }, p.2))) l5) l4) l4 = some (m, rest) := by
    rcases step3 with ⟨g, r, hsuf, hk⟩ | hk
    · exact ⟨r, hsuf, some g, hk⟩
    · exact ⟨l, List.suffix_refl l, Option.none, hk⟩
  obtain ⟨l4, hsuf4, g3, h4⟩ := h4
  have step4 := stLineField_some _ _ _ _ h4
  have h5 : ∃ l5, l5 <:+ l4 ∧ ∃ g4,
      stWordField "TEST_COVERAGE:".data (fun g5 l5 =>
        stWordField "INTEGRATION:".data (fun g6 l6 =>
          (stReasoning l6).map (fun p =>
            ({ g1 := g1, g2 := g2, g3 := g3, g4 := g4, g5 := g5, g6 := g6,
               g7 := p.1 }, p.2))) l5) l5 = some (m, rest) := by
    rcases step4 with ⟨g, r, hsuf, hk⟩ | hk
    · exact ⟨r, hsuf, some g, hk⟩
    · exact ⟨l4, List.suffix_refl l4, Option.none, hk⟩
  obtain ⟨l5, hsuf5, g4, h5⟩ := h5
  have step5 := stWordField_some _ _ _ _ h5
  have h6 : ∃ l6, l6 <:+ l5 ∧ ∃ g5,
      stWordField "INTEGRATION:".data (fun g6 l6 =>
        (stReasoning l6).map (fun p =>
          ({ g1 := g1, g2 := g2, g3 := g3, g4 := g4, g5 := g5, g6 := g6,
             g7 := p.1 }, p.2))) l6 = some (m, rest) := by
    rcases step5 with ⟨g, r, hsuf, hk⟩ | hk
    · exact ⟨r, hsuf, some g, hk⟩
    · exact ⟨l5, List.suffix_refl l5, Option.none, hk⟩
  obtain ⟨l6, hsuf6, g5, h6⟩ := h6
  have step6 := stWordField_some _ _ _ _ h6
  have h7 : ∃ l7, l7 <:+ l6 ∧ ∃ g6,
      (stReasoning l7).map (fun p =>
        (({ g1 := g1, g2 := g2, g3 := g3, g4 := g4, g5 := g5, g6 := g6,
            g7 := p.1 } : RawMatch), p.2)) = some (m, rest) := by
    rcases step6 with ⟨g, r, hsuf, hk⟩ | hk
    · exact ⟨r, hsuf, some g, hk⟩
    · exact ⟨l6, List.suffix_refl l6, Option.none, hk⟩
  obtain ⟨l7, hsuf7, g6, h7⟩ := h7
  cases hsr : stReasoning l7 with
  | none => rw [hsr] at h7; exact absurd h7 (by simp)
  | some p =>
    rw [hsr] at h7
    simp only [Option.map_some'] at h7
    have hmk := Option.some.inj h7
    have hm : RawMatch.mk g1 g2 g3 g4 g5 g6 p.1 = m := congrArg Prod.fst hmk
    have hrest : p.2 = rest := congrArg Prod.snd hmk
    obtain ⟨t, hsuf, hterm⟩ := stReasoning_some l7 p.1 p.2 (by rw [hsr])
    refine ⟨?_, ?_, t, hsuf.trans (hsuf7.trans (hsuf6.trans (hsuf5.trans hsuf4))), ?_⟩
    · rw [← hm]
    · rw [← hm]
    · rw [hterm, ← hm, hrest]

theorem matchTail_some (g1 l : List Char) (m : RawMatch) (rest : List Char)
    (h : matchTail g1 l = some (m, rest)) :
    VerdictKeyword m.g2 ∧ ∃ t, t <:+ l ∧ takeUntilTerm t = (m.g7, rest) := by
  rw [matchTail] at h
  cases hd : dropCI "VERDICT:".data l with
  | none => rw [hd] at h; exact absurd h (by simp)
  | some l1 =>
    rw [hd] at h
    simp only at h
    cases hk : matchKeyword (l1.drop (wsRun l1)) with
    | none => rw [hk] at h; exact absurd h (by simp)
    | some pr =>
      rw [hk] at h
      obtain ⟨hkw, hsufk⟩ := matchKeyword_some _ _ _ (by rw [hk])
      obtain ⟨c, _, hkc⟩ := wsNlThen_some _ _ _ h
      obtain ⟨hg1, hg2, t, hsuft, hterm⟩ := tailCont_some _ _ _ _ _ hkc
      refine ⟨by rw [hg2]; exact hkw, t, ?_, hterm⟩
      have hl1 : l1 = l.drop ("VERDICT:".data.length) := dropCI_some _ _ _ hd
      have hchain : pr.2.drop (c + 1) <:+ l := by
        have h1 : pr.2.drop (c + 1) <:+ pr.2 := List.drop_suffix _ _
        have h2 : pr.2 <:+ l1.drop (wsRun l1) := hsufk
        have h3 : l1.drop (wsRun l1) <:+ l1 := List.drop_suffix _ _
        have h4 : l1 <:+ l := by rw [hl1]; exact List.drop_suffix _ _
        exact h1.trans (h2.trans (h3.trans h4))
      exact hsuft.trans hchain

theorem matchChangeCore_some (l : List Char) (m : RawMatch) (rest : List Char)
    (h : matchChangeCore l = some (m, rest)) :
    VerdictKeyword m.g2 ∧ ∃ t, t <:+ l ∧ takeUntilTerm t = (m.g7, rest) := by
  rw [matchChangeCore] at h
  simp only at h
  by_cases h0 : wsRun l = 0
  · rw [if_pos h0] at h
    exact absurd h (by simp)
  · rw [if_neg h0] at h
    obtain ⟨am1, _, ha⟩ := tryDown_some _ _ _ h
    by_cases hle : am1 + 1 ≤ wsRun l
    · rw [if_pos hle] at ha
      obtain ⟨b, _, _, hb⟩ := tryUp_some _ _ _ _ ha
      by_cases hb0 : b = 0
      · rw [if_pos hb0] at hb
        exact absurd hb (by simp)
      · rw [if_neg hb0] at hb
        obtain ⟨c, _, hc⟩ := wsNlThen_some _ _ _ hb
        obtain ⟨hkw, t, hsuft, hterm⟩ := matchTail_some _ _ _ _ hc
        refine ⟨hkw, t, ?_, hterm⟩
        have hchain : (((l.drop (am1 + 1)).drop b).drop (c + 1)) <:+ l :=
          (List.drop_suffix _ _).trans ((List.drop_suffix _ _).trans (List.drop_suffix _ _))
        exact hsuft.trans hchain
    · rw [if_neg hle] at ha
      exact absurd ha (by simp)

theorem matchChangeAt_spec (l : List Char) (m : RawMatch) (rest : List Char)
    (h : matchChangeAt l = some (m, rest)) :
    VerdictKeyword m.g2 ∧ ∃ t, t <:+ l ∧ takeUntilTerm t = (m.g7, rest) := by
  rw [matchChangeAt] at h
  split at h
  · obtain ⟨hkw, t, hsuft, hterm⟩ := matchChangeCore_some _ _ _ h
    exact ⟨hkw, t, hsuft.trans (List.drop_suffix _ _), hterm⟩
  · exact absurd h (by simp)

theorem matchChangeAt_rest_suffix (l : List Char) (m : RawMatch) (rest : List Char)
    (h : matchChangeAt l = some (m, rest)) : rest <:+ l := by
  obtain ⟨_, t, hsuft, hterm⟩ := matchChangeAt_spec _ _ _ h
  have : rest = (takeUntilTerm t).2 := by rw [hterm]
  rw [this]
  exact (takeUntilTerm_suffix t).trans hsuft

theorem findIter_mem (fuel : Nat) (l : List Char) (m : RawMatch)
    (h : m ∈ findIter l fuel) :
    VerdictKeyword m.g2 ∧ ∃ t, t <:+ l ∧ (takeUntilTerm t).1 = m.g7 := by
  induction fuel generalizing l with
  | zero => rw [findIter] at h; exact absurd h (by simp)
  | succ fuel ih =>
    cases l with
    | nil => simp [findIter] at h
    | cons c0 rest0 =>
      rw [findIter] at h
      cases hm : matchChangeAt (c0 :: rest0) with
      | some pr =>
        rw [hm] at h
        rcases List.mem_cons.mp h with rfl | hmem
        · obtain ⟨hkw, t, hsuft, hterm⟩ := matchChangeAt_spec _ _ _ (by rw [hm])
          exact ⟨hkw, t, hsuft, by rw [hterm]⟩
        · have hsufr : pr.2 <:+ (c0 :: rest0) := by
            apply matchChangeAt_rest_suffix (c0 :: rest0) pr.1 pr.2
            rw [hm]
          obtain ⟨hkw, t, hsuft, h7⟩ := ih pr.2 hmem
          exact ⟨hkw, t, hsuft.trans hsufr, h7⟩
      | none =>
        rw [hm] at h
        obtain ⟨hkw, t, hsuft, h7⟩ := ih rest0 h
        exact ⟨hkw, t, hsuft.trans (List.suffix_cons c0 rest0), h7⟩

/-! ## C2: gate derivation -/

/-- The spec's upgrade order on verdicts: PASS < CONCERN < BLOCK; an
upgrade never lowers the gate. -/
def vmax (a b : Verdict) : Verdict :=
  match a, b with
  | Verdict.BLOCK, _ => Verdict.BLOCK
  | _, Verdict.BLOCK => Verdict.BLOCK
  | Verdict.CONCERN, _ => Verdict.CONCERN
  | _, Verdict.CONCERN => Verdict.CONCERN
  | _, _ => Verdict.PASS

/-- The claim's gate fold: start at PASS, upgrade through the changes in
order. -/
def claimGate (changes : List ChangeVerdict) : Verdict :=
  changes.foldl (fun g c => vmax g c.verdict) Verdict.PASS

theorem foldl_vmax_block (cs : List ChangeVerdict) :
    cs.foldl (fun g c => vmax g c.verdict) Verdict.BLOCK = Verdict.BLOCK := by
  induction cs with
  | nil => rfl
  | cons c rest ih =>
    rw [List.foldl_cons]
    have hb : vmax Verdict.BLOCK c.verdict = Verdict.BLOCK := by
      cases c.verdict <;> rfl
    rw [hb]
    exact ih

theorem gateLoop_eq_foldl (cs : List ChangeVerdict) (g : Verdict)
    (hg : g ≠ Verdict.BLOCK) :
    gateLoop g cs = cs.foldl (fun a c => vmax a c.verdict) g := by
  induction cs generalizing g with
  | nil => rfl
  | cons c rest ih =>
    rw [gateLoop, List.foldl_cons]
    by_cases hb : c.verdict = Verdict.BLOCK
    · rw [if_pos hb, hb]
      have hv : vmax g Verdict.BLOCK = Verdict.BLOCK := by
        cases g <;> rfl
      rw [hv, foldl_vmax_block]
    · rw [if_neg hb]
      by_cases hc : c.verdict = Verdict.CONCERN
      · rw [if_pos hc, hc]
        have hv : vmax g Verdict.CONCERN = Verdict.CONCERN := by
          cases g with
          | PASS => rfl
          | CONCERN => rfl
          | BLOCK => exact absurd rfl hg
        rw [hv]
        exact ih _ (by simp)
      · rw [if_neg hc]
        have hpass : c.verdict = Verdict.PASS := by
          cases hcv : c.verdict
          · rfl
          · exact absurd hcv hc
          · exact absurd hcv hb
        have hv : vmax g c.verdict = g := by
          rw [hpass]
          cases g with
          | PASS => rfl
          | CONCERN => rfl
          | BLOCK => exact absurd rfl hg
        rw [hv]
        exact ih _ hg

theorem findIter_all_space (fuel : Nat) (l : List Char)
    (h : ∀ c ∈ l, isSpaceChar c = true) : findIter l fuel = [] := by
  induction fuel generalizing l with
  | zero => cases l <;> rfl
  | succ fuel ih =>
    cases l with
    | nil => rfl
    | cons c rest =>
      rw [findIter]
      have hc : isSpaceChar c = true := h c (List.mem_cons_self c rest)
      have hnm : matchChangeAt (c :: rest) = Option.none := by
        rw [matchChangeAt]
        have hcn : ¬('#' = c) := by
          intro he
          rw [← he] at hc
          exact absurd hc (by decide)
        have hlp : litPrefix "###".data (c :: rest) = false := by
          rw [litPrefix]
          simp [hcn]
        rw [hlp]
        simp
      rw [hnm]
      exact ih rest (fun x hx => h x (List.mem_cons_of_mem c hx))

/-- C2: For every model name and raw text, `parse_review_response` yields a
ModelReview whose gate equals the fold over parsed changes in order:
starting at PASS, upgraded to CONCERN by any CONCERN change and to BLOCK by
any BLOCK change (a BLOCK change anywhere yields gate BLOCK regardless of
position), and equals CONCERN whenever zero changes were parsed — in
particular for empty or whitespace-only raw text. -/
theorem parse_review_response_gate (model s : String) :
    ((parse_review_response model s).changes ≠ [] →
      (parse_review_response model s).gate =
        claimGate (parse_review_response model s).changes) ∧
    ((parse_review_response model s).changes = [] →
      (parse_review_response model s).gate = Verdict.CONCERN) ∧
    (s.data.all isSpaceChar = true →
      (parse_review_response model s).changes = [] ∧
      (parse_review_response model s).gate = Verdict.CONCERN) := by
  have hch : (parse_review_response model s).changes =
      (changeMatches s).map changeOfMatch := rfl
  have hg : (parse_review_response model s).gate =
      (match (changeMatches s).map changeOfMatch with
       | [] => Verdict.CONCERN
       | _ :: _ => gateLoop Verdict.PASS ((changeMatches s).map changeOfMatch)) := rfl
  refine ⟨?_, ?_, ?_⟩
  · intro hne
    rw [hch] at hne ⊢
    rw [hg]
    cases hcs : (changeMatches s).map changeOfMatch with
    | nil => exact absurd hcs hne
    | cons c rest =>
      show gateLoop Verdict.PASS (c :: rest) = claimGate (c :: rest)
      exact gateLoop_eq_foldl _ _ (by simp)
  · intro he
    rw [hch] at he
    rw [hg, he]
  · intro hsp
    have hempty : changeMatches s = [] := by
      rw [changeMatches]
      apply findIter_all_space
      intro c hc
      exact List.all_eq_true.mp hsp c hc
    refine ⟨?_, ?_⟩
    · rw [hch, hempty]
      rfl
    · rw [hg, hempty]
      rfl

/-- Witness for C2 at concrete inputs: a response with a CONCERN change then
a BLOCK change folds to BLOCK, and a whitespace-only response parses to zero
changes and gate CONCERN. -/
theorem parse_review_response_gate_witness :
    ((parse_review_response "claude"
        "### a\nVERDICT: CONCERN\nREASONING: x\n---\n### b\nVERDICT: BLOCK\nREASONING: y\n").gate =
      claimGate (parse_review_response "claude"
        "### a\nVERDICT: CONCERN\nREASONING: x\n---\n### b\nVERDICT: BLOCK\nREASONING: y\n").changes) ∧
    ((parse_review_response "claude" " \n\t ").changes = [] ∧
      (parse_review_response "claude" " \n\t ").gate = Verdict.CONCERN) :=
  ⟨(parse_review_response_gate "claude" _).1 (by decide),
   (parse_review_response_gate "claude" " \n\t ").2.2 (by decide)⟩

/-! ## C3: unrecognized verdict text -/

/-- C3 counterexample: the claim says a change block whose VERDICT line
carries unrecognized text still produces a ChangeVerdict with verdict
CONCERN.  On this input the block's VERDICT line reads `MAYBE`, and the
parser produces no ChangeVerdict at all: `CHANGE_PATTERN` only matches the
three keywords, so the block is silently dropped. -/
theorem unrecognized_verdict_dropped_cex :
    (parse_review_response "claude" "### a\nVERDICT: MAYBE\nREASONING: r\n").changes = [] ∧
    (parse_review_response "claude" "### a\nVERDICT: MAYBE\nREASONING: r\n").gate =
      Verdict.CONCERN := by
  constructor
  · decide
  · decide

/-- C3 (amended): a change block is matched only if its VERDICT value is
PASS, CONCERN or BLOCK case-insensitively — every match's verdict group is
one of the three keywords, so a block with any other VERDICT text yields no
ChangeVerdict (it is dropped, not defaulted); `parse_verdict` itself maps
any unrecognized text to CONCERN when called. -/
theorem parse_verdict_default_concern :
    (∀ t : String, upperChars (stripChars t.data) ≠ "PASS".data →
      upperChars (stripChars t.data) ≠ "CONCERN".data →
      upperChars (stripChars t.data) ≠ "BLOCK".data →
      parse_verdict t = Verdict.CONCERN) ∧
    (∀ s : String, ∀ m ∈ changeMatches s, VerdictKeyword m.g2) := by
  constructor
  · intro t h1 h2 h3
    rw [parse_verdict]
    simp only
    rw [if_neg h1, if_neg h2, if_neg h3]
  · intro s m hm
    exact (findIter_mem _ _ _ hm).1

/-- Witness for C3's amended theorem: `parse_verdict` defaults "MAYBE" to
CONCERN, and the verdict group of a concrete mixed-case match is one of the
keywords. -/
theorem parse_verdict_default_concern_witness :
    parse_verdict "MAYBE" = Verdict.CONCERN ∧
    VerdictKeyword (RawMatch.mk "a".data "pAsS".data Option.none Option.none
      Option.none Option.none "ok".data).g2 :=
  ⟨parse_verdict_default_concern.1 "MAYBE" (by decide) (by decide) (by decide),
   parse_verdict_default_concern.2 "### a\nVERDICT: pAsS\nREASONING: ok" _ (by decide)⟩

/-! ## C6: extent of the REASONING field -/

/-- C6 counterexample: the claim says only a horizontal-rule marker, another
change heading, or end of text terminates REASONING.  Here the reasoning is
cut at `\n## notes` — an h2 section heading, which is neither a horizontal
rule nor a change heading (`### id`) nor end of text; under the claim the
reasoning would be "r1\n## notes\nmore". -/
theorem reasoning_h2_terminates_cex :
    ((parse_review_response "m"
        "### f\nVERDICT: PASS\nREASONING: r1\n## notes\nmore").changes).map
      (fun c => c.reasoning) = ["r1"] ∧
    ("r1" : String) ≠ "r1\n## notes\nmore" := by
  constructor
  · decide
  · decide

/-- C6 (amended): every match's REASONING group is everything after the
label (and the following whitespace run) up to the next terminator, where
the terminators are `\n---`, `\n###`, `\n##` (any h2-or-deeper heading, not
only a change heading), and end of text (`$`, which also matches before a
final newline); no earlier position within the group satisfies any
terminator. -/
theorem reasoning_extent (s : String) (m : RawMatch) (hm : m ∈ changeMatches s) :
    ∃ t, t <:+ s.data ∧
      m.g7 ++ (takeUntilTerm t).2 = t ∧
      isTerm (takeUntilTerm t).2 = true ∧
      ∀ i < m.g7.length, isTerm (t.drop i) = false := by
  obtain ⟨_, t, hsuf, h7⟩ := findIter_mem _ _ _ hm
  refine ⟨t, hsuf, ?_, takeUntilTerm_isTerm t, ?_⟩
  · rw [← h7]
    exact takeUntilTerm_append t
  · intro i hi
    apply takeUntilTerm_min
    rw [h7]
    exact hi

/-- Witness for C6's amended theorem at a concrete response. -/
theorem reasoning_extent_witness :
    ∃ t, t <:+ ("### a\nVERDICT: PASS\nREASONING: ok".data) ∧
      (RawMatch.mk "a".data "PASS".data Option.none Option.none Option.none
        Option.none "ok".data).g7 ++ (takeUntilTerm t).2 = t ∧
      isTerm (takeUntilTerm t).2 = true ∧
      ∀ i < (RawMatch.mk "a".data "PASS".data Option.none Option.none Option.none
        Option.none "ok".data).g7.length, isTerm (t.drop i) = false :=
  reasoning_extent "### a\nVERDICT: PASS\nREASONING: ok"
    (RawMatch.mk "a".data "PASS".data Option.none Option.none Option.none
      Option.none "ok".data) (by decide)

/-! ## `find_disagreements` (`aggregator.py`) -/

/-- One disagreement record: `{"change_id", "verdicts", "severity"}` with
verdicts rendered as `{model: v.value}`. -/
structure Disagreement where
  change_id : String
  verdicts : List (String × String)
  severity : String
deriving DecidableEq, Repr

/-- The `change_verdicts` dict of `find_disagreements`: for each change_id
(first-appearance order) the mapping model → verdict, where a later entry
for the same (change_id, model) overwrites the earlier one. -/
def buildChangeVerdicts (reviews : List ModelReview) :
    List (String × List (String × Verdict)) :=
  reviews.foldl (fun acc review =>
    review.changes.foldl (fun acc2 change =>
      dictInsert acc2 change.change_id
        (dictInsert ((acc2.lookup change.change_id).getD []) review.model change.verdict))
      acc) []

/-- Python `set(verdicts.values())`, as the deduplicated value list (only
membership and cardinality are consumed). -/
def uniqueVerdicts (verdicts : List (String × Verdict)) : List Verdict :=
  (verdicts.map Prod.snd).eraseDups

/-- The severity classification of `find_disagreements`. -/
def severityOf (uv : List Verdict) : String :=
  if Verdict.PASS ∈ uv ∧ Verdict.BLOCK ∈ uv then "HIGH"
  else if Verdict.BLOCK ∈ uv then "MEDIUM"
  else "LOW"

/-- The `severity_order` dict used as the sort key. -/
def severity_order (s : String) : Nat :=
  if s = "HIGH" then 0 else if s = "MEDIUM" then 1 else 2

/-- `find_disagreements(reviews)` from `aggregator.py`.  Python's
`list.sort` is a stable sort, modelled by `List.mergeSort`. -/
def find_disagreements (reviews : List ModelReview) : List Disagreement :=
  if reviews.length < 2 then []
  else
    let cv := buildChangeVerdicts reviews
    let disagreements := cv.filterMap (fun p =>
      let uv := uniqueVerdicts p.2
      if 1 < uv.length then
        some { change_id := p.1,
               verdicts := p.2.map (fun q => (q.1, q.2.value)),
               severity := severityOf uv }
      else Option.none)
    disagreements.mergeSort
      (fun a b => severity_order a.severity ≤ severity_order b.severity)

/-- The verdict mapping recorded for one change_id (empty when the
change_id was reported by no review). -/
def reportedFor (reviews : List ModelReview) (cid : String) :
    List (String × Verdict) :=
  (((buildChangeVerdicts reviews).lookup cid).getD [])

/-- All (change_id, model, verdict) triples in iteration order. -/
def allPairs (reviews : List ModelReview) : List (String × String × Verdict) :=
  reviews.flatMap (fun r => r.changes.map (fun c => (c.change_id, r.model, c.verdict)))

/-- One dict-write step of `buildChangeVerdicts`, on a flattened triple. -/
def pairsStep (acc : List (String × List (String × Verdict)))
    (p : String × String × Verdict) : List (String × List (String × Verdict)) :=
  dictInsert acc p.1 (dictInsert ((acc.lookup p.1).getD []) p.2.1 p.2.2)

theorem buildChangeVerdicts_eq_pairsFold (reviews : List ModelReview) :
    buildChangeVerdicts reviews = (allPairs reviews).foldl pairsStep [] := by
  suffices h : ∀ (rs : List ModelReview) (acc : List (String × List (String × Verdict))),
      rs.foldl (fun acc review =>
        review.changes.foldl (fun acc2 change =>
          dictInsert acc2 change.change_id
            (dictInsert ((acc2.lookup change.change_id).getD [])
              review.model change.verdict)) acc) acc =
      (rs.flatMap (fun r => r.changes.map (fun c => (c.change_id, r.model, c.verdict)))).foldl
        pairsStep acc by
    exact h reviews []
  intro rs
  induction rs with
  | nil => intro acc; rfl
  | cons r rest ih =>
    intro acc
    rw [List.foldl_cons, List.flatMap_cons, List.foldl_append, ih]
    congr 1
    rw [List.foldl_map]
    rfl

/-- C10: In `find_disagreements`, the verdict recorded for (change_id,
model) in the per-change verdict mapping is the verdict of the LAST
(review, change) write in iteration order — so two ChangeVerdict entries
with the same change_id in one ModelReview leave only the last occurrence's
verdict, and disagreement detection and severity are computed from each
model's last-listed verdict only. -/
theorem change_verdicts_last_write_wins (reviews : List ModelReview)
    (cid model : String) :
    (reportedFor reviews cid).lookup model =
      (((allPairs reviews).filter (fun p => p.1 = cid ∧ p.2.1 = model)).getLast?).map
        (fun p => p.2.2) := by
  rw [reportedFor, buildChangeVerdicts_eq_pairsFold]
  induction (allPairs reviews) using List.reverseRecOn with
  | nil => rfl
  | append_singleton ps p ih =>
    obtain ⟨pc, pm, pv⟩ := p
    rw [List.foldl_append, List.foldl_cons, List.foldl_nil, List.filter_append,
      List.getLast?_append]
    by_cases hcid : pc = cid
    · subst hcid
      by_cases hmodel : pm = model
      · subst hmodel
        have hf : List.filter (fun p => decide (p.1 = pc ∧ p.2.1 = pm)) [(pc, pm, pv)] =
            [(pc, pm, pv)] := by
          simp [List.filter_cons]
        rw [hf]
        rw [pairsStep]
        rw [dictInsert_lookup_self]
        simp only [Option.getD_some]
        rw [dictInsert_lookup_self]
        rfl
      · have hf : List.filter (fun p => decide (p.1 = pc ∧ p.2.1 = model)) [(pc, pm, pv)] =
            [] := by
          simp [List.filter_cons, hmodel]
        rw [hf]
        rw [pairsStep]
        rw [dictInsert_lookup_self]
        simp only [Option.getD_some]
        rw [dictInsert_lookup_ne _ _ _ _ (fun he => hmodel he.symm)]
        simp only [List.getLast?_nil, Option.none_or]
        exact ih
    · have hf : List.filter (fun p => decide (p.1 = cid ∧ p.2.1 = model)) [(pc, pm, pv)] =
          [] := by
        simp [List.filter_cons, hcid]
      rw [hf]
      rw [pairsStep]
      rw [dictInsert_lookup_ne _ _ _ _ (fun he => hcid he.symm)]
      simp only [List.getLast?_nil, Option.none_or]
      exact ih

theorem pairsFold_keys_nodup (ps : List (String × String × Verdict)) :
    ((ps.foldl pairsStep []).map Prod.fst).Nodup := by
  suffices h : ∀ acc : List (String × List (String × Verdict)),
      (acc.map Prod.fst).Nodup → ((ps.foldl pairsStep acc).map Prod.fst).Nodup by
    exact h [] (by simp)
  induction ps with
  | nil => intro acc h; exact h
  | cons p rest ih =>
    intro acc h
    rw [List.foldl_cons]
    exact ih _ (dictInsert_keys_nodup _ _ _ h)

theorem buildChangeVerdicts_keys_nodup (reviews : List ModelReview) :
    ((buildChangeVerdicts reviews).map Prod.fst).Nodup := by
  rw [buildChangeVerdicts_eq_pairsFold]
  exact pairsFold_keys_nodup _

theorem lookup_of_mem_nodup {α : Type} (l : List (String × α)) (p : String × α)
    (hmem : p ∈ l) (hnd : (l.map Prod.fst).Nodup) : l.lookup p.1 = some p.2 := by
  induction l with
  | nil => simp at hmem
  | cons q rest ih =>
    rw [List.map_cons, List.nodup_cons] at hnd
    rcases List.mem_cons.mp hmem with rfl | hmem2
    · simp [List.lookup]
    · rw [List.lookup]
      have hne : (p.1 == q.1) = false := by
        simp only [beq_eq_false_iff_ne, ne_eq]
        intro he
        apply hnd.1
        rw [← he]
        exact List.mem_map.mpr ⟨p, hmem2, rfl⟩
      rw [hne]
      exact ih hmem2 hnd.2

theorem filterMap_disag_map (cv : List (String × List (String × Verdict))) :
    ((cv.filterMap (fun p =>
      if 1 < (uniqueVerdicts p.2).length then
        some { change_id := p.1, verdicts := p.2.map (fun q => (q.1, q.2.value)),
               severity := severityOf (uniqueVerdicts p.2) : Disagreement }
      else Option.none)).map (fun d => d.change_id)) =
    (cv.filter (fun p => decide (1 < (uniqueVerdicts p.2).length))).map Prod.fst := by
  induction cv with
  | nil => rfl
  | cons p rest ih =>
    rw [List.filterMap_cons, List.filter_cons]
    by_cases h : 1 < (uniqueVerdicts p.2).length
    · rw [if_pos h]
      have hd : decide (1 < (uniqueVerdicts p.2).length) = true := decide_eq_true h
      rw [hd]
      simp only [if_true, List.map_cons]
      rw [ih]
    · rw [if_neg h]
      have hd : decide (1 < (uniqueVerdicts p.2).length) = false :=
        decide_eq_false h
      rw [hd]
      simp only [if_false]
      exact ih

/-- C4: `find_disagreements` returns exactly one record per change_id whose
set of distinct reported verdicts has size > 1 (no duplicate change_ids; a
change_id occurs iff it was reported and its distinct verdicts exceed one,
and only when at least two reviews were supplied); each record's verdicts
are the per-model mapping for that change_id and its severity is HIGH if
both PASS and BLOCK appear among the reported verdicts, MEDIUM if BLOCK
appears without PASS, LOW otherwise; the result is sorted by severity (HIGH
before MEDIUM before LOW); and the result is empty whenever fewer than two
reviews are supplied. -/
theorem find_disagreements_correct (reviews : List ModelReview) :
    (reviews.length < 2 → find_disagreements reviews = []) ∧
    ((find_disagreements reviews).map (fun d => d.change_id)).Nodup ∧
    (∀ cid, (∃ d ∈ find_disagreements reviews, d.change_id = cid) ↔
      (2 ≤ reviews.length ∧ cid ∈ (buildChangeVerdicts reviews).map Prod.fst ∧
        1 < (uniqueVerdicts (reportedFor reviews cid)).length)) ∧
    (∀ d ∈ find_disagreements reviews,
      d.verdicts = (reportedFor reviews d.change_id).map (fun q => (q.1, q.2.value)) ∧
      d.severity =
        (if Verdict.PASS ∈ uniqueVerdicts (reportedFor reviews d.change_id) ∧
            Verdict.BLOCK ∈ uniqueVerdicts (reportedFor reviews d.change_id) then "HIGH"
         else if Verdict.BLOCK ∈ uniqueVerdicts (reportedFor reviews d.change_id) then
           "MEDIUM"
         else "LOW")) ∧
    (find_disagreements reviews).Pairwise
      (fun a b => severity_order a.severity ≤ severity_order b.severity) := by
  by_cases hlen : reviews.length < 2
  · have hfd : find_disagreements reviews = [] := by
      rw [find_disagreements, if_pos hlen]
    refine ⟨fun _ => hfd, ?_, ?_, ?_, ?_⟩
    · rw [hfd]; exact List.nodup_nil
    · intro cid
      rw [hfd]
      simp only [List.not_mem_nil, false_and, exists_false, false_iff, not_and]
      intro h2
      omega
    · intro d hd
      rw [hfd] at hd
      exact absurd hd (List.not_mem_nil d)
    · rw [hfd]; exact List.Pairwise.nil
  · have hfd : find_disagreements reviews =
        ((buildChangeVerdicts reviews).filterMap (fun p =>
          if 1 < (uniqueVerdicts p.2).length then
            some { change_id := p.1, verdicts := p.2.map (fun q => (q.1, q.2.value)),
                   severity := severityOf (uniqueVerdicts p.2) : Disagreement }
          else Option.none)).mergeSort
          (fun a b => severity_order a.severity ≤ severity_order b.severity) := by
      rw [find_disagreements, if_neg hlen]
    have hperm := List.mergeSort_perm
      ((buildChangeVerdicts reviews).filterMap (fun p =>
        if 1 < (uniqueVerdicts p.2).length then
          some { change_id := p.1, verdicts := p.2.map (fun q => (q.1, q.2.value)),
                 severity := severityOf (uniqueVerdicts p.2) : Disagreement }
        else Option.none))
      (fun a b => severity_order a.severity ≤ severity_order b.severity)
    have hnd := buildChangeVerdicts_keys_nodup reviews
    have hrep : ∀ p ∈ buildChangeVerdicts reviews, reportedFor reviews p.1 = p.2 := by
      intro p hp
      rw [reportedFor, lookup_of_mem_nodup _ p hp hnd]
      rfl
    refine ⟨fun h => absurd h hlen, ?_, ?_, ?_, ?_⟩
    · rw [hfd]
      have hmapperm := hperm.map (fun d => d.change_id)
      rw [hmapperm.nodup_iff, filterMap_disag_map]
      exact ((List.filter_sublist _).map Prod.fst).nodup hnd
    · intro cid
      constructor
      · rintro ⟨d, hd, rfl⟩
        rw [hfd] at hd
        have hd2 := hperm.mem_iff.mp hd
        obtain ⟨p, hp, hF⟩ := List.mem_filterMap.mp hd2
        by_cases hgt : 1 < (uniqueVerdicts p.2).length
        · rw [if_pos hgt] at hF
          have hdp := Option.some.inj hF
          refine ⟨by omega, ?_, ?_⟩
          · rw [← hdp]
            exact List.mem_map.mpr ⟨p, hp, rfl⟩
          · rw [← hdp]
            show 1 < (uniqueVerdicts (reportedFor reviews p.1)).length
            rw [hrep p hp]
            exact hgt
        · rw [if_neg hgt] at hF
          exact absurd hF (by simp)
      · rintro ⟨h2, hmem, hgt⟩
        obtain ⟨p, hp, hp1⟩ := List.mem_map.mp hmem
        rw [← hp1, hrep p hp] at hgt
        refine ⟨{ change_id := p.1, verdicts := p.2.map (fun q => (q.1, q.2.value)),
                  severity := severityOf (uniqueVerdicts p.2) }, ?_, hp1⟩
        rw [hfd]
        apply hperm.mem_iff.mpr
        apply List.mem_filterMap.mpr
        exact ⟨p, hp, by rw [if_pos hgt]⟩
    · intro d hd
      rw [hfd] at hd
      obtain ⟨p, hp, hF⟩ := List.mem_filterMap.mp (hperm.mem_iff.mp hd)
      by_cases hgt : 1 < (uniqueVerdicts p.2).length
      · rw [if_pos hgt] at hF
        have hdp := Option.some.inj hF
        rw [← hdp]
        simp only
        rw [hrep p hp]
        exact ⟨rfl, rfl⟩
      · rw [if_neg hgt] at hF
        exact absurd hF (by simp)
    · rw [hfd]
      have hsort := @List.sorted_mergeSort Disagreement
        (fun a b =>
          decide (severity_order a.severity ≤ severity_order b.severity))
        (fun a b c hab hbc => by
          simp only [decide_eq_true_eq] at hab hbc ⊢
          omega)
        (fun a b => by
          simp only [Bool.or_eq_true, decide_eq_true_eq]
          omega)
        ((buildChangeVerdicts reviews).filterMap (fun p =>
          if 1 < (uniqueVerdicts p.2).length then
            some { change_id := p.1, verdicts := p.2.map (fun q => (q.1, q.2.value)),
                   severity := severityOf (uniqueVerdicts p.2) : Disagreement }
          else Option.none))
      exact hsort.imp (fun h => of_decide_eq_true h)

/-- Witness for C4: a PASS/BLOCK split on "file.py" across two models is
reported, and a single review yields no disagreements. -/
theorem find_disagreements_correct_witness :
    (∃ d ∈ find_disagreements
        [{ model := "claude", gate := Verdict.PASS,
           changes := [{ change_id := "file.py", verdict := Verdict.PASS }] },
         { model := "gemini", gate := Verdict.BLOCK,
           changes := [{ change_id := "file.py", verdict := Verdict.BLOCK }] }],
      d.change_id = "file.py") ∧
    find_disagreements [{ model := "claude", gate := Verdict.PASS }] = [] :=
  ⟨((find_disagreements_correct _).2.2.1 "file.py").mpr
      ⟨by decide, by decide, by decide⟩,
   (find_disagreements_correct _).1 (by decide)⟩

/-! ## C7: `parse_observations` -/

/-- C7: For every raw response string, `parse_observations` never raises (it
is a total function) and returns the empty list whenever the fenced JSON
block is absent, the fenced content fails to parse as JSON, or it parses to
a non-array value; it returns the parsed array only when the fence contains
a valid JSON array. -/
theorem parse_observations_correct (jsonLoads : String → Except String PyVal)
    (s : String) :
    (obsFenceContent s = Option.none → parse_observations jsonLoads s = []) ∧
    (∀ content, obsFenceContent s = some content →
      (∀ e, jsonLoads (stripChars content).asString = Except.error e →
        parse_observations jsonLoads s = []) ∧
      (∀ xs, jsonLoads (stripChars content).asString = Except.ok (PyVal.list xs) →
        parse_observations jsonLoads s = xs) ∧
      (∀ v, jsonLoads (stripChars content).asString = Except.ok v →
        (∀ xs, v ≠ PyVal.list xs) → parse_observations jsonLoads s = [])) := by
  refine ⟨?_, ?_⟩
  · intro hnone
    rw [parse_observations, hnone]
  · intro content hsome
    refine ⟨?_, ?_, ?_⟩
    · intro e he
      simp only [parse_observations, hsome, he]
    · intro xs hxs
      simp only [parse_observations, hsome, hxs]
    · intro v hv hne
      cases v with
      | list xs => exact absurd rfl (hne xs)
      | str s => simp only [parse_observations, hsome, hv]
      | int n => simp only [parse_observations, hsome, hv]
      | bool b => simp only [parse_observations, hsome, hv]
      | none => simp only [parse_observations, hsome, hv]
      | dict kvs => simp only [parse_observations, hsome, hv]

/-- Witness for C7: with a fence containing `[]` and an oracle that parses
it as the empty array, the array is returned; with no fence, the result is
empty regardless of the oracle. -/
theorem parse_observations_correct_witness :
    parse_observations (fun _ => Except.ok (PyVal.list []))
        "### OBSERVATIONS\n```json\n[]\n```" = [] ∧
    parse_observations (fun _ => Except.error "boom") "no fence here" = [] :=
  ⟨(parse_observations_correct _ _).2 "[]".data (by decide) |>.2.1 [] rfl,
   (parse_observations_correct _ _).1 (by decide)⟩

/-! ## C5: the review loop (`review_with_model`) -/

/-- Python truthiness of an optional string (`if repo_path:` / `if not
tool:`). -/
def pyTruthyOptStr : Option String → Bool
  | Option.none => false
  | some s => !s.isEmpty

/-- `dict.update`: fold the new entries into the accumulator. -/
def dictUpdate (d newEntries : List (String × PyVal)) : List (String × PyVal) :=
  newEntries.foldl (fun acc kv => dictInsert acc kv.1 kv.2) d

/-- One anchored attempt of `re.search(r"```diff\n(.*?)\n```", prompt,
re.DOTALL)` (case-sensitive). -/
def matchDiffAt (l : List Char) : Option (List Char) :=
  if litPrefix "```diff\n".data l then (takeUntilFence (l.drop 8)).map (fun p => p.1)
  else Option.none

/-- The diff-fence extraction of `review_with_model`. -/
def findDiffFence (prompt : String) : Option (List Char) :=
  searchFirst matchDiffAt prompt.data prompt.data.length

/-- External collaborators of the review loop: the model CLI
(`run_model`, indexed by iteration since the external model is not a
function of the prompt), the observation runner boundary, the prompt
builder, and `json.loads`. -/
structure ReviewEnv where
  runModel : String → String → Nat → Except String String
  runObs : List PyVal → String → Except String (List (String × PyVal))
  buildPrompt : String → List (String × PyVal) → String
  jsonLoads : String → Except String PyVal

/-- The iteration loop of `review_with_model` (the body of its `try`).
`remaining` counts the iterations left in `range(max_observations + 1)`;
the `remaining = 0` case is the `return parse_review_response(model,
response)` after the loop (unreachable, since the last iteration always
returns, but modelled faithfully). -/
def reviewLoopGo (env : ReviewEnv) (model prompt : String)
    (repo_path : Option String) (max_observations : Nat) :
    Nat → Nat → List (String × PyVal) → String → String → Except String ModelReview
  | _, 0, _, _, lastResponse => Except.ok (parse_review_response model lastResponse)
  | iteration, remaining + 1, accObs, currentPrompt, _ =>
    match env.runModel model currentPrompt iteration with
    | Except.error e => Except.error e
    | Except.ok response =>
      let requested_obs := parse_observations env.jsonLoads response
      if requested_obs.isEmpty || max_observations ≤ iteration then
        let review := parse_review_response model response
        Except.ok (if accObs.isEmpty then review else { review with observations := accObs })
      else
        if pyTruthyOptStr repo_path then
          match env.runObs requested_obs (repo_path.getD "") with
          | Except.error e => Except.error e
          | Except.ok obs_results =>
            let accObs' := dictUpdate accObs obs_results
            let diff_content := ((findDiffFence prompt).map List.asString).getD ""
            reviewLoopGo env model prompt repo_path max_observations
              (iteration + 1) remaining accObs'
              (env.buildPrompt diff_content accObs') response
        else
          Except.ok (parse_review_response model response)

/-- The whole `try` body of `review_with_model`. -/
def reviewLoopBody (env : ReviewEnv) (model prompt : String)
    (repo_path : Option String) (max_observations : Nat) : Except String ModelReview :=
  reviewLoopGo env model prompt repo_path max_observations 0 (max_observations + 1)
    [] prompt ""

/-- `review_with_model`: the `except Exception` branch converts any failure
into the BLOCK sentinel review. -/
def review_with_model (env : ReviewEnv) (model prompt : String)
    (repo_path : Option String) (max_observations : Nat) : ModelReview :=
  match reviewLoopBody env model prompt repo_path max_observations with
  | Except.ok review => review
  | Except.error e =>
    { model := model
      gate := Verdict.BLOCK
      changes := [{ change_id := "ERROR", verdict := Verdict.BLOCK,
                    reasoning := "Model invocation failed: " ++ e }]
      raw_response := e }

/-- C5: if any exception is raised inside the `try` body of
`review_with_model` (in the embedding: the loop body returns an error, which
only the external-invocation oracles can produce), the function returns —
never raises, being total — a synthetic ModelReview with gate BLOCK, exactly
one change with change_id "ERROR" and verdict BLOCK whose reasoning contains
the failure description, and raw_response equal to the stringified error. -/
theorem review_with_model_error_sentinel (env : ReviewEnv) (model prompt : String)
    (repo_path : Option String) (max_observations : Nat) (e : String)
    (h : reviewLoopBody env model prompt repo_path max_observations = Except.error e) :
    review_with_model env model prompt repo_path max_observations =
      { model := model, gate := Verdict.BLOCK,
        changes := [{ change_id := "ERROR", verdict := Verdict.BLOCK,
                      reasoning := "Model invocation failed: " ++ e }],
        raw_response := e } ∧
    (review_with_model env model prompt repo_path max_observations).gate = Verdict.BLOCK ∧
    (review_with_model env model prompt repo_path max_observations).changes.length = 1 ∧
    (∀ c ∈ (review_with_model env model prompt repo_path max_observations).changes,
      c.change_id = "ERROR" ∧ c.verdict = Verdict.BLOCK ∧
      ∃ pre, c.reasoning = pre ++ e) ∧
    (review_with_model env model prompt repo_path max_observations).raw_response = e := by
  have hrw : review_with_model env model prompt repo_path max_observations =
      { model := model, gate := Verdict.BLOCK,
        changes := [{ change_id := "ERROR", verdict := Verdict.BLOCK,
                      reasoning := "Model invocation failed: " ++ e }],
        raw_response := e } := by
    rw [review_with_model, h]
  refine ⟨hrw, by rw [hrw], by rw [hrw]; rfl, ?_, by rw [hrw]⟩
  intro c hc
  rw [hrw] at hc
  rcases List.mem_cons.mp hc with rfl | hfalse
  · exact ⟨rfl, rfl, "Model invocation failed: ", rfl⟩
  · exact absurd hfalse (List.not_mem_nil c)

/-- Witness for C5: an environment whose model invocation fails immediately
produces the BLOCK sentinel. -/
theorem review_with_model_error_sentinel_witness :
    (review_with_model
      { runModel := fun _ _ _ => Except.error "boom",
        runObs := fun _ _ => Except.ok [],
        buildPrompt := fun _ _ => "",
        jsonLoads := fun _ => Except.error "nojson" }
      "claude" "p" Option.none 3).gate = Verdict.BLOCK ∧
    (review_with_model
      { runModel := fun _ _ _ => Except.error "boom",
        runObs := fun _ _ => Except.ok [],
        buildPrompt := fun _ _ => "",
        jsonLoads := fun _ => Except.error "nojson" }
      "claude" "p" Option.none 3).raw_response = "boom" :=
  ⟨(review_with_model_error_sentinel
      { runModel := fun _ _ _ => Except.error "boom",
        runObs := fun _ _ => Except.ok [],
        buildPrompt := fun _ _ => "",
        jsonLoads := fun _ => Except.error "nojson" }
      "claude" "p" Option.none 3 "boom" (by rfl)).2.1,
   (review_with_model_error_sentinel
      { runModel := fun _ _ _ => Except.error "boom",
        runObs := fun _ _ => Except.ok [],
        buildPrompt := fun _ _ => "",
        jsonLoads := fun _ => Except.error "nojson" }
      "claude" "p" Option.none 3 "boom" (by rfl)).2.2.2.2⟩

/-! ## C8: the observation runner (`observations.py`) -/

/-- The keys of the `OBSERVATION_TOOLS` registry. -/
def OBSERVATION_TOOL_NAMES : List String :=
  ["exception_hierarchy", "raises_analysis", "call_graph", "find_usages",
   "git_blame", "test_coverage", "coverage_map_tests", "coverage_map_files",
   "file_imports", "project_dependencies"]

/-- `inspect.signature(tool_func).parameters` for each registered tool,
read off the source signatures. -/
def toolParams : String → List String
  | "exception_hierarchy" => ["class_name", "repo_path"]
  | "raises_analysis" => ["file_path", "function_name", "repo_path"]
  | "call_graph" => ["file_path", "function_name", "repo_path"]
  | "find_usages" => ["symbol", "repo_path"]
  | "git_blame" => ["file_path", "start_line", "end_line", "repo_path"]
  | "test_coverage" => ["file_path", "repo_path"]
  | "coverage_map_tests" => ["file_path", "repo_path"]
  | "coverage_map_files" => ["test_pattern", "repo_path"]
  | "file_imports" => ["file_path", "repo_path"]
  | "project_dependencies" => ["repo_path"]
  | _ => []

/-- Outcome of awaiting one tool coroutine: a value, a raised `TypeError`
(caught inside `run_observation`), or any other raised exception (which
propagates to `asyncio.gather(..., return_exceptions=True)`). -/
inductive ToolOutcome
  | ok (v : PyVal)
  | typeError (msg : String)
  | raised (msg : String)

/-- The `{"name": ..., "tool": ..., "result": ...}` record built by
`run_observation` (`tool` is absent in the unknown-tool record). -/
structure ObsRecord where
  name : String
  tool : Option String
  result : PyVal

/-- `run_observation(name, tool, params, repo_path)`: unknown tools yield an
error record; parameters are filtered to the tool's signature and
`repo_path` is injected when accepted and absent; a raised `TypeError`
becomes a parameter-error record; any other exception propagates.  The
tools' own filesystem/subprocess behaviour is the `invoke` oracle. -/
def run_observation (invoke : String → List (String × PyVal) → ToolOutcome)
    (name tool : String) (params : List (String × PyVal)) (repo_path : String) :
    Except String ObsRecord :=
  if tool ∉ OBSERVATION_TOOL_NAMES then
    Except.ok { name := name, tool := Option.none,
                result := PyVal.dict [("error", PyVal.str ("Unknown tool: " ++ tool))] }
  else
    let valid := toolParams tool
    let filtered := params.filter (fun kv => kv.1 ∈ valid)
    let filtered' :=
      if "repo_path" ∈ valid ∧ ¬ (filtered.any (fun kv => kv.1 = "repo_path") = true) then
        filtered ++ [("repo_path", PyVal.str repo_path)]
      else filtered
    match invoke tool filtered' with
    | ToolOutcome.ok v => Except.ok { name := name, tool := some tool, result := v }
    | ToolOutcome.typeError m =>
      Except.ok { name := name, tool := some tool,
                  result := PyVal.dict
                    [("error", PyVal.str ("Parameter error: " ++ m)),
                     ("params_received", PyVal.list (params.map (fun kv => PyVal.str kv.1)))] }
    | ToolOutcome.raised m => Except.error m

/-- One observation request dict: `obs.get("name", "unnamed")`,
`obs.get("tool")`, `obs.get("params", {})`. -/
structure ObsRequest where
  name : Option String
  tool : Option String
  params : List (String × PyVal) := []

/-- `run_observations(observations, repo_path)`: first pass records
"No tool specified" errors and gathers the tasks; the gathered results
(`return_exceptions=True`) are then keyed by name, exceptions becoming
`{"error": ...}` for that name only. -/
def run_observations (invoke : String → List (String × PyVal) → ToolOutcome)
    (observations : List ObsRequest) (repo_path : String) :
    List (String × PyVal) :=
  let init := observations.foldl
    (fun (st : List (String × PyVal) × List (String × String × List (String × PyVal))) obs =>
      let name := obs.name.getD "unnamed"
      if pyTruthyOptStr obs.tool then
        (st.1, st.2 ++ [(name, obs.tool.getD "", obs.params)])
      else
        (dictInsert st.1 name (PyVal.dict [("error", PyVal.str "No tool specified")]), st.2))
    ([], [])
  let task_results := init.2.map
    (fun t => (t.1, run_observation invoke t.1 t.2.1 t.2.2 repo_path))
  task_results.foldl (fun results t =>
    match t.2 with
    | Except.error m => dictInsert results t.1 (PyVal.dict [("error", PyVal.str m)])
    | Except.ok r => dictInsert results t.1 r.result) init.1

/-- The result `run_observations` assigns to one request, as a function of
that request alone. -/
def expectedObsResult (invoke : String → List (String × PyVal) → ToolOutcome)
    (repo_path : String) (obs : ObsRequest) : PyVal :=
  if pyTruthyOptStr obs.tool then
    match run_observation invoke (obs.name.getD "unnamed") (obs.tool.getD "")
        obs.params repo_path with
    | Except.error m => PyVal.dict [("error", PyVal.str m)]
    | Except.ok r => r.result
  else
    PyVal.dict [("error", PyVal.str "No tool specified")]

theorem foldl_cond_dictInsert_lookup_out {β : Type}
    (cond : β → Bool) (key : β → String) (val : β → PyVal)
    (ts : List β) (acc : List (String × PyVal)) (k : String)
    (h : ∀ t ∈ ts, cond t = false → key t ≠ k) :
    (ts.foldl (fun a t => if cond t then a else dictInsert a (key t) (val t)) acc).lookup k
      = acc.lookup k := by
  induction ts generalizing acc with
  | nil => rfl
  | cons t rest ih =>
    rw [List.foldl_cons]
    by_cases hct : cond t = true
    · rw [if_pos hct]
      exact ih acc (fun u hu => h u (List.mem_cons_of_mem t hu))
    · rw [if_neg hct]
      rw [ih _ (fun u hu => h u (List.mem_cons_of_mem t hu))]
      exact dictInsert_lookup_ne _ _ _ _
        (fun he => h t (List.mem_cons_self t rest) (Bool.eq_false_iff.mpr hct) he.symm)

theorem foldl_cond_dictInsert_lookup_hit {β : Type}
    (cond : β → Bool) (key : β → String) (val : β → PyVal)
    (ts : List β) (acc : List (String × PyVal)) (t0 : β)
    (hmem : t0 ∈ ts) (h0 : cond t0 = false)
    (hnd : ((ts.filter (fun t => !cond t)).map key).Nodup) :
    (ts.foldl (fun a t => if cond t then a else dictInsert a (key t) (val t)) acc).lookup
      (key t0) = some (val t0) := by
  induction ts generalizing acc with
  | nil => simp at hmem
  | cons t rest ih =>
    rw [List.foldl_cons]
    rw [List.filter_cons] at hnd
    by_cases hct : cond t = true
    · rw [if_pos hct]
      have ht0 : t0 ∈ rest := by
        rcases List.mem_cons.mp hmem with rfl | hr
        · rw [h0] at hct; exact absurd hct (by simp)
        · exact hr
      have hnd2 : ((rest.filter (fun t => !cond t)).map key).Nodup := by
        have : (!cond t) = false := by rw [hct]; rfl
        rw [this] at hnd
        simpa using hnd
      exact ih acc ht0 hnd2
    · rw [if_neg hct]
      have hcf : cond t = false := Bool.eq_false_iff.mpr hct
      have hfc : (!cond t) = true := by rw [hcf]; rfl
      rw [hfc] at hnd
      simp only [if_true, List.map_cons, List.nodup_cons] at hnd
      rcases List.mem_cons.mp hmem with rfl | hr
      · rw [foldl_cond_dictInsert_lookup_out cond key val rest _ _ ?_]
        · exact dictInsert_lookup_self _ _ _
        · intro u hu hcu he
          apply hnd.1
          rw [← he]
          apply List.mem_map.mpr
          refine ⟨u, ?_, rfl⟩
          apply List.mem_filter.mpr
          exact ⟨hu, by rw [hcu]; rfl⟩
      · exact ih _ hr hnd.2

theorem foldl_cond_dictInsert_keys_mono {β : Type}
    (cond : β → Bool) (key : β → String) (val : β → PyVal)
    (ts : List β) (acc : List (String × PyVal)) (k : String)
    (h : k ∈ acc.map Prod.fst) :
    k ∈ (ts.foldl (fun a t => if cond t then a else dictInsert a (key t) (val t)) acc).map
      Prod.fst := by
  induction ts generalizing acc with
  | nil => exact h
  | cons t rest ih =>
    rw [List.foldl_cons]
    by_cases hct : cond t = true
    · rw [if_pos hct]; exact ih _ h
    · rw [if_neg hct]
      exact ih _ ((dictInsert_keys_mem _ _ _ _).mpr (Or.inl h))

theorem foldl_cond_dictInsert_keys_mem {β : Type}
    (cond : β → Bool) (key : β → String) (val : β → PyVal)
    (ts : List β) (acc : List (String × PyVal)) (t0 : β)
    (hmem : t0 ∈ ts) (h0 : cond t0 = false) :
    key t0 ∈ (ts.foldl (fun a t => if cond t then a else dictInsert a (key t) (val t)) acc).map
      Prod.fst := by
  induction ts generalizing acc with
  | nil => simp at hmem
  | cons t rest ih =>
    rw [List.foldl_cons]
    by_cases hct : cond t = true
    · rw [if_pos hct]
      have ht0 : t0 ∈ rest := by
        rcases List.mem_cons.mp hmem with rfl | hr
        · rw [h0] at hct; exact absurd hct (by simp)
        · exact hr
      exact ih _ ht0
    · rw [if_neg hct]
      rcases List.mem_cons.mp hmem with rfl | hr
      · exact foldl_cond_dictInsert_keys_mono _ _ _ _ _ _
          ((dictInsert_keys_mem _ _ _ _).mpr (Or.inr rfl))
      · exact ih _ hr

/-- The no-tool error value. -/
def noToolErr : PyVal := PyVal.dict [("error", PyVal.str "No tool specified")]

/-- The per-task result value of the gather loop. -/
def taskVal (t : String × Except String ObsRecord) : PyVal :=
  match t.2 with
  | Except.error m => PyVal.dict [("error", PyVal.str m)]
  | Except.ok r => r.result

/-- The request-to-task extraction of the first loop. -/
def reqTask (obs : ObsRequest) : Option (String × String × List (String × PyVal)) :=
  if pyTruthyOptStr obs.tool then
    some (obs.name.getD "unnamed", obs.tool.getD "", obs.params)
  else Option.none

theorem phase1_split (reqs : List ObsRequest)
    (st : List (String × PyVal) × List (String × String × List (String × PyVal))) :
    reqs.foldl
      (fun (st : List (String × PyVal) × List (String × String × List (String × PyVal))) obs =>
        let name := obs.name.getD "unnamed"
        if pyTruthyOptStr obs.tool then
          (st.1, st.2 ++ [(name, obs.tool.getD "", obs.params)])
        else
          (dictInsert st.1 name (PyVal.dict [("error", PyVal.str "No tool specified")]), st.2))
      st =
    (reqs.foldl (fun a obs =>
        if pyTruthyOptStr obs.tool then a
        else dictInsert a (obs.name.getD "unnamed") noToolErr) st.1,
     st.2 ++ reqs.filterMap reqTask) := by
  induction reqs generalizing st with
  | nil => simp
  | cons r rest ih =>
    rw [List.foldl_cons, List.foldl_cons, List.filterMap_cons]
    by_cases hr : pyTruthyOptStr r.tool = true
    · simp only [hr, if_true, reqTask]
      rw [ih]
      simp [List.append_assoc]
    · have hrf : pyTruthyOptStr r.tool = false := Bool.eq_false_iff.mpr hr
      simp only [hrf, Bool.false_eq_true, if_false, reqTask]
      rw [ih]
      rfl

theorem run_observations_eq (invoke : String → List (String × PyVal) → ToolOutcome)
    (reqs : List ObsRequest) (repo : String) :
    run_observations invoke reqs repo =
      (((reqs.filterMap reqTask).map
          (fun t => (t.1, run_observation invoke t.1 t.2.1 t.2.2 repo))).foldl
        (fun a t => if (fun _ => false) t then a else dictInsert a t.1 (taskVal t))
        (reqs.foldl (fun a obs =>
          if pyTruthyOptStr obs.tool then a
          else dictInsert a (obs.name.getD "unnamed") noToolErr) [])) := by
  rw [run_observations]
  simp only
  rw [phase1_split]
  simp only [List.nil_append]
  apply List.foldl_ext
  intro a t _
  cases ht : t.2 with
  | error m => simp [taskVal, ht]
  | ok r => simp [taskVal, ht]

theorem filterMap_reqTask_keys (reqs : List ObsRequest) :
    (reqs.filterMap reqTask).map Prod.fst =
      (reqs.filter (fun r => pyTruthyOptStr r.tool)).map
        (fun r => r.name.getD "unnamed") := by
  induction reqs with
  | nil => rfl
  | cons r rest ih =>
    rw [List.filterMap_cons, List.filter_cons]
    by_cases hr : pyTruthyOptStr r.tool = true
    · simp only [reqTask, hr, if_true, List.map_cons]
      rw [ih]
    · have hrf : pyTruthyOptStr r.tool = false := Bool.eq_false_iff.mpr hr
      simp only [reqTask, hrf, Bool.false_eq_true, if_false]
      exact ih

/-- C8: `run_observations` returns a mapping with an entry for every
request; with pairwise-distinct request names, the entry under each
request's name is a function of that request alone — `{"error": "No tool
specified"}` when no tool is named, the per-request result otherwise (so a
single request's raised exception becomes an `{"error": ...}` entry for
that name only, never aborting or altering sibling requests' results) — and
a request naming a tool outside the registry gets
`{"error": "Unknown tool: <tool>"}`. -/
theorem run_observations_correct (invoke : String → List (String × PyVal) → ToolOutcome)
    (reqs : List ObsRequest) (repo : String) :
    (∀ req ∈ reqs,
      (req.name.getD "unnamed") ∈ (run_observations invoke reqs repo).map Prod.fst) ∧
    ((reqs.map (fun r => r.name.getD "unnamed")).Nodup →
      ∀ req ∈ reqs,
        (run_observations invoke reqs repo).lookup (req.name.getD "unnamed") =
          some (expectedObsResult invoke repo req)) ∧
    (∀ req : ObsRequest, pyTruthyOptStr req.tool = true →
      (req.tool.getD "") ∉ OBSERVATION_TOOL_NAMES →
      expectedObsResult invoke repo req =
        PyVal.dict [("error", PyVal.str ("Unknown tool: " ++ (req.tool.getD "")))]) := by
  refine ⟨?_, ?_, ?_⟩
  · intro req hreq
    rw [run_observations_eq]
    by_cases ht : pyTruthyOptStr req.tool = true
    · have htask : (req.name.getD "unnamed", req.tool.getD "", req.params) ∈
          reqs.filterMap reqTask :=
        List.mem_filterMap.mpr ⟨req, hreq, by simp [reqTask, ht]⟩
      have ht0 : ((req.name.getD "unnamed",
          run_observation invoke (req.name.getD "unnamed") (req.tool.getD "")
            req.params repo)) ∈
          (reqs.filterMap reqTask).map
            (fun t => (t.1, run_observation invoke t.1 t.2.1 t.2.2 repo)) :=
        List.mem_map.mpr ⟨_, htask, rfl⟩
      exact foldl_cond_dictInsert_keys_mem (fun _ => false) (fun t => t.1) taskVal
        _ _ _ ht0 rfl
    · have htf : pyTruthyOptStr req.tool = false := Bool.eq_false_iff.mpr ht
      apply foldl_cond_dictInsert_keys_mono
      exact foldl_cond_dictInsert_keys_mem (fun obs => pyTruthyOptStr obs.tool)
        (fun obs => obs.name.getD "unnamed") (fun _ => noToolErr) _ _ _ hreq htf
  · intro hnd req hreq
    rw [run_observations_eq]
    by_cases ht : pyTruthyOptStr req.tool = true
    · have htask : (req.name.getD "unnamed", req.tool.getD "", req.params) ∈
          reqs.filterMap reqTask :=
        List.mem_filterMap.mpr ⟨req, hreq, by simp [reqTask, ht]⟩
      have ht0 : ((req.name.getD "unnamed",
          run_observation invoke (req.name.getD "unnamed") (req.tool.getD "")
            req.params repo)) ∈
          (reqs.filterMap reqTask).map
            (fun t => (t.1, run_observation invoke t.1 t.2.1 t.2.2 repo)) :=
        List.mem_map.mpr ⟨_, htask, rfl⟩
      have hkeys : ((reqs.filterMap reqTask).map
          (fun t => (t.1, run_observation invoke t.1 t.2.1 t.2.2 repo))).map Prod.fst =
          (reqs.filter (fun r => pyTruthyOptStr r.tool)).map
            (fun r => r.name.getD "unnamed") := by
        rw [List.map_map]
        exact filterMap_reqTask_keys reqs
      have hndt : (((reqs.filterMap reqTask).map
          (fun t => (t.1, run_observation invoke t.1 t.2.1 t.2.2 repo))).map
            Prod.fst).Nodup := by
        rw [hkeys]
        exact ((List.filter_sublist reqs).map _).nodup hnd
      have hfil : (((reqs.filterMap reqTask).map
          (fun t => (t.1, run_observation invoke t.1 t.2.1 t.2.2 repo))).filter
            (fun t => !((fun _ => false) t))) =
          ((reqs.filterMap reqTask).map
            (fun t => (t.1, run_observation invoke t.1 t.2.1 t.2.2 repo))) := by
        simp
      have hhit := foldl_cond_dictInsert_lookup_hit (fun _ => false) (fun t => t.1)
        taskVal _ (reqs.foldl (fun a obs =>
          if pyTruthyOptStr obs.tool then a
          else dictInsert a (obs.name.getD "unnamed") noToolErr) []) _ ht0 rfl
        (by rw [hfil]; exact hndt)
      rw [hhit]
      congr 1
      rw [expectedObsResult, if_pos ht]
      cases hro : run_observation invoke (req.name.getD "unnamed") (req.tool.getD "")
          req.params repo with
      | error m => simp [taskVal, hro]
      | ok r => simp [taskVal, hro]
    · have htf : pyTruthyOptStr req.tool = false := Bool.eq_false_iff.mpr ht
      have hout : ∀ t ∈ (reqs.filterMap reqTask).map
          (fun t => (t.1, run_observation invoke t.1 t.2.1 t.2.2 repo)),
          (fun _ => false) t = false → t.1 ≠ (req.name.getD "unnamed") := by
        intro t htm _ he
        obtain ⟨u, hu, hut⟩ := List.mem_map.mp htm
        obtain ⟨r', hr', hur⟩ := List.mem_filterMap.mp hu
        by_cases hrt : pyTruthyOptStr r'.tool = true
        · rw [reqTask, if_pos hrt] at hur
          have hr'mem : r' ∈ reqs := hr'
          have hname : r'.name.getD "unnamed" = req.name.getD "unnamed" := by
            have h1 : u.1 = r'.name.getD "unnamed" := by
              rw [← Option.some.inj hur]
            have h2 : t.1 = u.1 := by rw [← hut]
            rw [← h1, ← h2, he]
          have heq := List.inj_on_of_nodup_map hnd hr'mem hreq hname
          rw [heq] at hrt
          exact ht hrt
        · rw [reqTask, if_neg hrt] at hur
          exact absurd hur (by simp)
      rw [foldl_cond_dictInsert_lookup_out _ _ _ _ _ _ hout]
      have hhit := foldl_cond_dictInsert_lookup_hit
        (fun obs => pyTruthyOptStr obs.tool) (fun obs => obs.name.getD "unnamed")
        (fun _ => noToolErr) reqs [] req hreq htf
        ((((List.filter_sublist reqs).map _).nodup hnd))
      rw [hhit]
      rw [expectedObsResult, if_neg (by rw [htf]; simp)]
      rfl
  · intro req h1 h2
    rw [expectedObsResult, if_pos h1]
    rw [run_observation, if_pos h2]

/-- A concrete tool-behaviour oracle: `find_usages` raises, everything else
returns a value. -/
def obsInvokeW : String → List (String × PyVal) → ToolOutcome :=
  fun tool _ =>
    if tool = "find_usages" then ToolOutcome.raised "disk on fire"
    else ToolOutcome.ok (PyVal.str "fine")

/-- A concrete batch: unknown tool, raising tool, and a missing tool. -/
def obsReqsW : List ObsRequest :=
  [{ name := some "a", tool := some "nonexistent_tool" },
   { name := some "b", tool := some "find_usages" },
   { name := some "d", tool := Option.none }]

/-- Witness for C8 on a concrete batch: a request naming an unregistered
tool and a no-tool request each receive their own entry, computed from that
request alone. -/
theorem run_observations_correct_witness :
    (run_observations obsInvokeW obsReqsW "/repo").lookup "a" =
      some (expectedObsResult obsInvokeW "/repo"
        { name := some "a", tool := some "nonexistent_tool" }) ∧
    (run_observations obsInvokeW obsReqsW "/repo").lookup "d" =
      some (expectedObsResult obsInvokeW "/repo"
        { name := some "d", tool := Option.none }) ∧
    expectedObsResult obsInvokeW "/repo"
        { name := some "a", tool := some "nonexistent_tool" } =
      PyVal.dict [("error", PyVal.str "Unknown tool: nonexistent_tool")] := by
  refine ⟨?_, ?_, ?_⟩
  · exact (run_observations_correct obsInvokeW obsReqsW "/repo").2.1 (by decide) _
      (List.mem_cons_self _ _)
  · exact (run_observations_correct obsInvokeW obsReqsW "/repo").2.1 (by decide) _
      (List.mem_cons_of_mem _ (List.mem_cons_of_mem _ (List.mem_cons_self _ _)))
  · exact (run_observations_correct obsInvokeW obsReqsW "/repo").2.2 _ (by decide)
      (by decide)

/-! ## C9: `raises_analysis` (`observations.py`) -/

mutual
/-- Python expression fragment relevant to `_RaisesVisitor`. -/
inductive PyExpr
  | name (id : String)
  | attributeE (value : PyExpr) (attr : String)
  | call (func : PyExpr) (args : List PyExpr)
  | constant (value : String)
  | tupleE (elts : List PyExpr)

/-- Python statement fragment relevant to `_RaisesVisitor` and `ast.walk`. -/
inductive PyStmt
  | functionDef (name : String) (body : List PyStmt)
  | asyncFunctionDef (name : String) (body : List PyStmt)
  | tryStmt (body : List PyStmt) (handlers : List PyHandler) (orelse : List PyStmt)
      (finalbody : List PyStmt)
  | raiseStmt (exc : Option PyExpr)
  | exprStmt (value : PyExpr)
  | ifStmt (test : PyExpr) (body : List PyStmt) (orelse : List PyStmt)
  | returnStmt (value : Option PyExpr)
  | assign (value : PyExpr)
  | passStmt

/-- `ast.ExceptHandler`. -/
inductive PyHandler
  | handler (type : Option PyExpr) (body : List PyStmt)
end

/-- `_get_exception_name(exc_node)`. -/
def getExceptionName : PyExpr → Option String
  | PyExpr.call (PyExpr.name id) _ => some id
  | PyExpr.call (PyExpr.attributeE _ attr) _ => some attr
  | PyExpr.call _ _ => Option.none
  | PyExpr.name id => some id
  | _ => Option.none

/-- One handler's contribution to `_get_caught_exceptions`. -/
def caughtOfHandler : PyHandler → List String
  | PyHandler.handler Option.none _ => ["*"]
  | PyHandler.handler (some (PyExpr.name id)) _ => [id]
  | PyHandler.handler (some (PyExpr.tupleE elts)) _ =>
    elts.filterMap (fun e =>
      match e with
      | PyExpr.name id => some id
      | _ => Option.none)
  | PyHandler.handler (some _) _ => []

/-- `_get_caught_exceptions(handlers)` (a set in Python; only membership is
consumed). -/
def getCaughtExceptions (handlers : List PyHandler) : List String :=
  handlers.flatMap caughtOfHandler

/-- The caught-check of `visit_Raise`: caught by any enclosing entry that
holds `"*"` (bare except), the raised name itself, `"Exception"`, or
`"BaseException"`. -/
def caughtCheck (stack : List (List String)) (exc_name : String) : Bool :=
  stack.any (fun caught =>
    caught.contains "*" || caught.contains exc_name ||
    caught.contains "Exception" || caught.contains "BaseException")

/-- The name `visit_Call` records for a call node: the function's simple
name, its attribute name, or nothing. -/
def callNameList : PyExpr → List String
  | PyExpr.name id => [id]
  | PyExpr.attributeE _ attr => [attr]
  | PyExpr.call _ _ => []
  | PyExpr.constant _ => []
  | PyExpr.tupleE _ => []

/-- The mutable state of `_RaisesVisitor`. -/
structure VisitorState where
  raises : List String
  calls : List String
  caught_stack : List (List String)
deriving Repr

mutual
/-- `_RaisesVisitor.visit` (dispatch on the node type; other statements get
`generic_visit`, which visits child nodes). -/
def visitStmt (st : VisitorState) : PyStmt → VisitorState
  | PyStmt.tryStmt body handlers orelse finalbody =>
    let caught := getCaughtExceptions handlers
    let st1 := visitStmts { st with caught_stack := st.caught_stack ++ [caught] } body
    let st2 := { st1 with caught_stack := st1.caught_stack.dropLast }
    let st3 := visitStmts st2 orelse
    let st4 := visitStmts st3 finalbody
    visitHandlersBodies st4 handlers
  | PyStmt.raiseStmt (some e) =>
    let st1 :=
      match getExceptionName e with
      | some n =>
        if caughtCheck st.caught_stack n then st
        else { st with raises := st.raises ++ [n] }
      | Option.none => st
    visitExpr st1 e
  | PyStmt.raiseStmt Option.none => st
  | PyStmt.exprStmt e => visitExpr st e
  | PyStmt.ifStmt test body orelse =>
    visitStmts (visitStmts (visitExpr st test) body) orelse
  | PyStmt.returnStmt (some e) => visitExpr st e
  | PyStmt.returnStmt Option.none => st
  | PyStmt.assign e => visitExpr st e
  | PyStmt.functionDef _ body => visitStmts st body
  | PyStmt.asyncFunctionDef _ body => visitStmts st body
  | PyStmt.passStmt => st

def visitStmts (st : VisitorState) : List PyStmt → VisitorState
  | [] => st
  | s :: rest => visitStmts (visitStmt st s) rest

def visitHandlersBodies (st : VisitorState) : List PyHandler → VisitorState
  | [] => st
  | PyHandler.handler _ body :: rest => visitHandlersBodies (visitStmts st body) rest

/-- `visit_Call` plus `generic_visit` on expressions. -/
def visitExpr (st : VisitorState) : PyExpr → VisitorState
  | PyExpr.call f args =>
    let st1 := { st with calls := st.calls ++ callNameList f }
    visitExprs (visitExpr st1 f) args
  | PyExpr.attributeE v _ => visitExpr st v
  | PyExpr.tupleE elts => visitExprs st elts
  | PyExpr.name _ => st
  | PyExpr.constant _ => st

def visitExprs (st : VisitorState) : List PyExpr → VisitorState
  | [] => st
  | e :: rest => visitExprs (visitExpr st e) rest
end

/-- A node of `ast.walk`'s queue (expressions contain no function
definitions, so only statements and except-handlers are walked). -/
inductive WalkNode
  | stmt (s : PyStmt)
  | handler (h : PyHandler)

/-- `ast.iter_child_nodes`, restricted to statement/handler children in
field order. -/
def nodeChildren : WalkNode → List WalkNode
  | WalkNode.stmt (PyStmt.functionDef _ body) => body.map WalkNode.stmt
  | WalkNode.stmt (PyStmt.asyncFunctionDef _ body) => body.map WalkNode.stmt
  | WalkNode.stmt (PyStmt.tryStmt body handlers orelse finalbody) =>
    body.map WalkNode.stmt ++ handlers.map WalkNode.handler ++
    orelse.map WalkNode.stmt ++ finalbody.map WalkNode.stmt
  | WalkNode.stmt (PyStmt.ifStmt _ body orelse) =>
    body.map WalkNode.stmt ++ orelse.map WalkNode.stmt
  | WalkNode.stmt _ => []
  | WalkNode.handler (PyHandler.handler _ body) => body.map WalkNode.stmt

mutual
def stmtSize : PyStmt → Nat
  | PyStmt.functionDef _ body => 1 + stmtsSize body
  | PyStmt.asyncFunctionDef _ body => 1 + stmtsSize body
  | PyStmt.tryStmt body handlers orelse finalbody =>
    1 + stmtsSize body + handlersSize handlers + stmtsSize orelse + stmtsSize finalbody
  | PyStmt.ifStmt _ body orelse => 1 + stmtsSize body + stmtsSize orelse
  | _ => 1

def stmtsSize : List PyStmt → Nat
  | [] => 0
  | s :: rest => stmtSize s + stmtsSize rest

def handlerSize : PyHandler → Nat
  | PyHandler.handler _ body => 1 + stmtsSize body

def handlersSize : List PyHandler → Nat
  | [] => 0
  | h :: rest => handlerSize h + handlersSize rest
end

def nodeSize : WalkNode → Nat
  | WalkNode.stmt s => stmtSize s
  | WalkNode.handler h => handlerSize h

def queueSize : List WalkNode → Nat
  | [] => 0
  | n :: rest => nodeSize n + queueSize rest

/-- `ast.walk` (breadth-first, a FIFO queue extended with each node's
children) fused with the first-match search of `raises_analysis`.  Each
step dequeues one node whose size exceeds its children's total size, so
`queueSize` strictly decreases and `fuel := queueSize + 1` never runs out
before the queue empties. -/
def findFuncBFS (fn : String) : Nat → List WalkNode → Option (List PyStmt)
  | 0, _ => Option.none
  | _ + 1, [] => Option.none
  | fuel + 1, n :: rest =>
    match n with
    | WalkNode.stmt (PyStmt.functionDef name body) =>
      if name = fn then some body
      else findFuncBFS fn fuel (rest ++ nodeChildren n)
    | WalkNode.stmt (PyStmt.asyncFunctionDef name body) =>
      if name = fn then some body
      else findFuncBFS fn fuel (rest ++ nodeChildren n)
    | _ => findFuncBFS fn fuel (rest ++ nodeChildren n)

/-- The `walk`-and-find of `raises_analysis` over a parsed module. -/
def findFunc (tree : List PyStmt) (fn : String) : Option (List PyStmt) :=
  findFuncBFS fn (queueSize (tree.map WalkNode.stmt) + 1) (tree.map WalkNode.stmt)

/-- The result dict of `raises_analysis`. -/
structure RaisesResult where
  function : String
  file : String
  explicit_raises : List String
  calls : List String
  error : Option String
deriving Repr

/-- `raises_analysis(file_path, function_name)` on an already-parsed
module (file reading and `ast.parse` happen before this core; their
failures are the outer `except` and out of scope here).  `list(set(...))`
is modelled as order-preserving deduplication — Python's set iteration
order is unspecified, so only membership in these fields is meaningful. -/
def raises_analysis (tree : List PyStmt) (file_path function_name : String) :
    RaisesResult :=
  match findFunc tree function_name with
  | some body =>
    let visitor := visitStmts { raises := [], calls := [], caught_stack := [] } body
    { function := function_name, file := file_path,
      explicit_raises := visitor.raises.eraseDups,
      calls := (visitor.calls.eraseDups).take 20,
      error := Option.none }
  | Option.none =>
    { function := function_name, file := file_path, explicit_raises := [],
      calls := [], error := some ("Function '" ++ function_name ++ "' not found") }

mutual
/-- Declarative reading of the visitor's raise collection: traverse with an
explicit stack of caught-name sets; a try's body is traversed under the
extended stack, its orelse, finalbody and handler bodies under the outer
stack; a raise of name `n` is kept iff no enclosing entry catches it. -/
def collectRaises (ctx : List (List String)) : PyStmt → List String
  | PyStmt.tryStmt body handlers orelse finalbody =>
    collectRaisesList (ctx ++ [getCaughtExceptions handlers]) body ++
    (collectRaisesList ctx orelse ++
     (collectRaisesList ctx finalbody ++ collectRaisesHandlers ctx handlers))
  | PyStmt.raiseStmt (some e) =>
    (match getExceptionName e with
     | some n => if caughtCheck ctx n then [] else [n]
     | Option.none => [])
  | PyStmt.raiseStmt Option.none => []
  | PyStmt.exprStmt _ => []
  | PyStmt.ifStmt _ body orelse =>
    collectRaisesList ctx body ++ collectRaisesList ctx orelse
  | PyStmt.returnStmt _ => []
  | PyStmt.assign _ => []
  | PyStmt.functionDef _ body => collectRaisesList ctx body
  | PyStmt.asyncFunctionDef _ body => collectRaisesList ctx body
  | PyStmt.passStmt => []

def collectRaisesList (ctx : List (List String)) : List PyStmt → List String
  | [] => []
  | s :: rest => collectRaises ctx s ++ collectRaisesList ctx rest

def collectRaisesHandlers (ctx : List (List String)) : List PyHandler → List String
  | [] => []
  | PyHandler.handler _ body :: rest =>
    collectRaisesList ctx body ++ collectRaisesHandlers ctx rest
end

mutual
/-- Declarative reading of the visitor's call collection. -/
def collectCallsStmt : PyStmt → List String
  | PyStmt.tryStmt body handlers orelse finalbody =>
    collectCallsList body ++
    (collectCallsList orelse ++
     (collectCallsList finalbody ++ collectCallsHandlers handlers))
  | PyStmt.raiseStmt (some e) => collectCallsExpr e
  | PyStmt.raiseStmt Option.none => []
  | PyStmt.exprStmt e => collectCallsExpr e
  | PyStmt.ifStmt test body orelse =>
    collectCallsExpr test ++ (collectCallsList body ++ collectCallsList orelse)
  | PyStmt.returnStmt (some e) => collectCallsExpr e
  | PyStmt.returnStmt Option.none => []
  | PyStmt.assign e => collectCallsExpr e
  | PyStmt.functionDef _ body => collectCallsList body
  | PyStmt.asyncFunctionDef _ body => collectCallsList body
  | PyStmt.passStmt => []

def collectCallsList : List PyStmt → List String
  | [] => []
  | s :: rest => collectCallsStmt s ++ collectCallsList rest

def collectCallsHandlers : List PyHandler → List String
  | [] => []
  | PyHandler.handler _ body :: rest => collectCallsList body ++ collectCallsHandlers rest

def collectCallsExpr : PyExpr → List String
  | PyExpr.call f args =>
    callNameList f ++ (collectCallsExpr f ++ collectCallsExprs args)
  | PyExpr.attributeE v _ => collectCallsExpr v
  | PyExpr.tupleE elts => collectCallsExprs elts
  | PyExpr.name _ => []
  | PyExpr.constant _ => []

def collectCallsExprs : List PyExpr → List String
  | [] => []
  | e :: rest => collectCallsExpr e ++ collectCallsExprs rest
end


mutual
theorem visitStmt_spec (st : VisitorState) (s : PyStmt) :
    visitStmt st s =
      { raises := st.raises ++ collectRaises st.caught_stack s,
        calls := st.calls ++ collectCallsStmt s,
        caught_stack := st.caught_stack } := by
  cases s with
  | tryStmt body handlers orelse finalbody =>
    simp only [visitStmt, visitStmts_spec, visitHandlersBodies_spec,
      collectRaises, collectCallsStmt, List.dropLast_concat, List.append_assoc]
  | raiseStmt exc =>
    cases exc with
    | none => simp [visitStmt, collectRaises, collectCallsStmt]
    | some e =>
      rw [visitStmt]
      cases hge : getExceptionName e with
      | some n =>
        by_cases hc : caughtCheck st.caught_stack n = true
        · simp [hge, hc, visitExpr_spec, collectRaises, collectCallsStmt]
        · simp [hge, hc, visitExpr_spec, collectRaises, collectCallsStmt]
      | none =>
        simp [hge, visitExpr_spec, collectRaises, collectCallsStmt]
  | exprStmt e =>
    simp [visitStmt, visitExpr_spec, collectRaises, collectCallsStmt]
  | ifStmt test body orelse =>
    simp [visitStmt, visitExpr_spec, visitStmts_spec, collectRaises,
      collectCallsStmt, List.append_assoc]
  | returnStmt exc =>
    cases exc with
    | none => simp [visitStmt, collectRaises, collectCallsStmt]
    | some e => simp [visitStmt, visitExpr_spec, collectRaises, collectCallsStmt]
  | assign e =>
    simp [visitStmt, visitExpr_spec, collectRaises, collectCallsStmt]
  | functionDef name body =>
    simp [visitStmt, visitStmts_spec, collectRaises, collectCallsStmt]
  | asyncFunctionDef name body =>
    simp [visitStmt, visitStmts_spec, collectRaises, collectCallsStmt]
  | passStmt => simp [visitStmt, collectRaises, collectCallsStmt]

theorem visitStmts_spec (st : VisitorState) (l : List PyStmt) :
    visitStmts st l =
      { raises := st.raises ++ collectRaisesList st.caught_stack l,
        calls := st.calls ++ collectCallsList l,
        caught_stack := st.caught_stack } := by
  cases l with
  | nil => simp [visitStmts, collectRaisesList, collectCallsList]
  | cons s rest =>
    rw [visitStmts, visitStmt_spec, visitStmts_spec]
    simp [collectRaisesList, collectCallsList, List.append_assoc]

theorem visitHandlersBodies_spec (st : VisitorState) (hs : List PyHandler) :
    visitHandlersBodies st hs =
      { raises := st.raises ++ collectRaisesHandlers st.caught_stack hs,
        calls := st.calls ++ collectCallsHandlers hs,
        caught_stack := st.caught_stack } := by
  cases hs with
  | nil => simp [visitHandlersBodies, collectRaisesHandlers, collectCallsHandlers]
  | cons h rest =>
    cases h with
    | handler ty body =>
      rw [visitHandlersBodies, visitStmts_spec, visitHandlersBodies_spec]
      simp [collectRaisesHandlers, collectCallsHandlers, List.append_assoc]

theorem visitExpr_spec (st : VisitorState) (e : PyExpr) :
    visitExpr st e =
      { raises := st.raises, calls := st.calls ++ collectCallsExpr e,
        caught_stack := st.caught_stack } := by
  cases e with
  | call f args =>
    rw [visitExpr, visitExpr_spec, visitExprs_spec]
    simp [collectCallsExpr, List.append_assoc]
  | attributeE v at2 =>
    rw [visitExpr, visitExpr_spec]
    simp [collectCallsExpr]
  | tupleE elts =>
    rw [visitExpr, visitExprs_spec]
    simp [collectCallsExpr]
  | name id => simp [visitExpr, collectCallsExpr]
  | constant v => simp [visitExpr, collectCallsExpr]

theorem visitExprs_spec (st : VisitorState) (l : List PyExpr) :
    visitExprs st l =
      { raises := st.raises, calls := st.calls ++ collectCallsExprs l,
        caught_stack := st.caught_stack } := by
  cases l with
  | nil => simp [visitExprs, collectCallsExprs]
  | cons e rest =>
    rw [visitExprs, visitExpr_spec, visitExprs_spec]
    simp [collectCallsExprs, List.append_assoc]
end

/-- C9 counterexample: the claim counts "an except naming a supertype-by-name
of the raised type" as caught.  Here `FileNotFoundError` is raised inside
`try: ... except OSError: pass` — `OSError` is a supertype of
`FileNotFoundError` — yet the analysis still reports it: the code only
treats a bare except, the exact raised name, `Exception` or `BaseException`
as catching. -/
theorem raises_supertype_not_caught_cex :
    (raises_analysis
      [PyStmt.functionDef "f"
        [PyStmt.tryStmt
          [PyStmt.raiseStmt (some (PyExpr.call (PyExpr.name "FileNotFoundError") []))]
          [PyHandler.handler (some (PyExpr.name "OSError")) [PyStmt.passStmt]] [] []]]
      "m.py" "f").explicit_raises = ["FileNotFoundError"] ∧
    (raises_analysis
      [PyStmt.functionDef "f"
        [PyStmt.tryStmt
          [PyStmt.raiseStmt (some (PyExpr.call (PyExpr.name "FileNotFoundError") []))]
          [PyHandler.handler (some (PyExpr.name "OSError")) [PyStmt.passStmt]] [] []]]
      "m.py" "f").explicit_raises ≠ [] := by
  refine ⟨?_, ?_⟩
  · decide
  · decide

/-- C9 (amended): `raises_analysis` returns in `explicit_raises` exactly
(up to deduplication) the exception names explicitly raised in the named
function's body that are not caught by an enclosing try/except within the
same function, where only a bare except, an except naming the raised type
EXACTLY, or an except naming `Exception` or `BaseException` counts as
caught (an except naming any other supertype does not); a raise inside a
handler body that is not wrapped by a further enclosing try still appears
(handler bodies are traversed under the outer context); and when the
function is not found the result carries an explicit error field with empty
result sets rather than raising. -/
theorem raises_analysis_correct (tree : List PyStmt) (fp fn : String) :
    (∀ body, findFunc tree fn = some body →
      raises_analysis tree fp fn =
        { function := fn, file := fp,
          explicit_raises := (collectRaisesList [] body).eraseDups,
          calls := ((collectCallsList body).eraseDups).take 20,
          error := Option.none }) ∧
    (findFunc tree fn = Option.none →
      raises_analysis tree fp fn =
        { function := fn, file := fp, explicit_raises := [], calls := [],
          error := some ("Function '" ++ fn ++ "' not found") }) := by
  constructor
  · intro body hfound
    simp only [raises_analysis, hfound]
    rw [visitStmts_spec]
    simp
  · intro hnone
    simp only [raises_analysis, hnone]

/-- Witness for C9's amended theorem: the spec's own scenario — a
`ValueError` raised under `except Exception:` is suppressed, while the
`RuntimeError` raised inside that handler's body (not wrapped further)
still appears. -/
theorem raises_analysis_correct_witness :
    raises_analysis
        [PyStmt.functionDef "g"
          [PyStmt.tryStmt
            [PyStmt.raiseStmt (some (PyExpr.call (PyExpr.name "ValueError") []))]
            [PyHandler.handler (some (PyExpr.name "Exception"))
              [PyStmt.raiseStmt (some (PyExpr.call (PyExpr.name "RuntimeError") []))]]
            [] []]]
        "m.py" "g" =
      { function := "g", file := "m.py",
        explicit_raises := (collectRaisesList []
          [PyStmt.tryStmt
            [PyStmt.raiseStmt (some (PyExpr.call (PyExpr.name "ValueError") []))]
            [PyHandler.handler (some (PyExpr.name "Exception"))
              [PyStmt.raiseStmt (some (PyExpr.call (PyExpr.name "RuntimeError") []))]]
            [] []]).eraseDups,
        calls := ((collectCallsList
          [PyStmt.tryStmt
            [PyStmt.raiseStmt (some (PyExpr.call (PyExpr.name "ValueError") []))]
            [PyHandler.handler (some (PyExpr.name "Exception"))
              [PyStmt.raiseStmt (some (PyExpr.call (PyExpr.name "RuntimeError") []))]]
            [] []]).eraseDups).take 20,
        error := Option.none } ∧
    (collectRaisesList []
      [PyStmt.tryStmt
        [PyStmt.raiseStmt (some (PyExpr.call (PyExpr.name "ValueError") []))]
        [PyHandler.handler (some (PyExpr.name "Exception"))
          [PyStmt.raiseStmt (some (PyExpr.call (PyExpr.name "RuntimeError") []))]]
        [] []]) = ["RuntimeError"] :=
  ⟨(raises_analysis_correct _ "m.py" "g").1 _ (by rfl), by decide⟩
